import Mathlib

/-!
Verification of the synthetic activity-timeline generator
(`test-data/generate_data.py`).

The Python module is shallowly embedded below.  Conventions used
throughout the embedding:

* `datetime` values are modelled as integer seconds since the epoch;
  calendar dates are modelled as the integer day index since 1970-01-01
  (which was a Thursday, i.e. Python `weekday()` value 3).
* `timedelta.seconds` (used by the source for `work_duration` and for
  `remaining_time`) is `(b - a) % 86400` with a nonnegative remainder,
  which is exactly Python's semantics for the `.seconds` component;
  `timedelta.total_seconds()` is plain subtraction.
* The shared `random` generator is an explicit state `Rng`: an infinite
  stream of raw natural-number draws plus a cursor.  `random.randint a b`
  maps a raw draw into `[a, b]` (every value of the interval is reachable
  by a suitable raw draw) and raises `ValueError` -- modelled as `none` --
  when `a > b`.  `random.random()` yields a rational in `[0, 1)`.
  `random.choices(population, weights)` raises when the lengths differ or
  the total weight is not positive, and otherwise picks by cumulative
  weights, consuming one draw.
* The float literals `0.3` and `0.5` of the lunch-placement code and the
  float divisions in `avg_switches` are modelled as exact rationals /
  integer division; `round(x, 4)` is modelled as exact round-half-even
  to four decimal digits (`pyround4`).
* Python exceptions are modelled by `Option`: a raising call is `none`.
  A loop of the source that would not terminate is modelled by fuel
  exhaustion, which also yields `none`.
-/

/-- Explicit state of the global `random` generator: a stream of raw
natural-number draws and the index of the next draw to be consumed. -/
structure Rng where
  draws : Nat → Nat
  idx : Nat

/-- `random.randint lo hi`: uniform integer in `[lo, hi]`; raises
(`none`) when `lo > hi`.  Consumes one raw draw. -/
def randint (lo hi : Int) (g : Rng) : Option (Int × Rng) :=
  if lo ≤ hi then
    some (lo + (g.draws g.idx : Int) % (hi - lo + 1), ⟨g.draws, g.idx + 1⟩)
  else none

/-- `random.random()`: a rational in `[0, 1)`.  Consumes one raw draw. -/
def pyrandom (g : Rng) : ℚ × Rng :=
  (((g.draws g.idx % 1000000 : ℕ) : ℚ) / 1000000, ⟨g.draws, g.idx + 1⟩)

/-- Walk the cumulative weights: pick the first element whose weight
window contains `r`. -/
def weightedChoice : List String → List Nat → Nat → String
  | [], _, _ => ""
  | x :: _, [], _ => x
  | x :: xs, w :: ws, r => if r < w then x else weightedChoice xs ws (r - w)

/-- `random.choices(population, weights)[0]`: raises (`none`) when the
lengths differ or the total weight is not positive; otherwise selects by
cumulative weights.  Consumes one raw draw. -/
def choices (population : List String) (weights : List Nat) (g : Rng) :
    Option (String × Rng) :=
  if population.length = weights.length ∧ 0 < weights.sum then
    some (weightedChoice population weights (g.draws g.idx % weights.sum),
      ⟨g.draws, g.idx + 1⟩)
  else none

/-- A wall-clock time of day, parsed from an `"HH:MM"` schedule string. -/
structure HM where
  hour : Nat
  minute : Nat
deriving DecidableEq

/-- Seconds since midnight of an `HM` schedule entry. -/
def hm_seconds (t : HM) : Int := (t.hour : Int) * 3600 + (t.minute : Int) * 60

/-- A calendar date, as the day index since 1970-01-01. -/
abbrev Date := Int

/-- Python `date.weekday()`: Monday = 0 .. Sunday = 6.  1970-01-01 was a
Thursday (= 3). -/
def weekday (d : Date) : Int := (d + 3) % 7

/-- `is_weekend` of the source: Saturday = 5, Sunday = 6. -/
def is_weekend (d : Date) : Bool := 5 ≤ weekday d

/-- Epoch seconds of midnight of a date. -/
def day_start (d : Date) : Int := d * 86400

/-- `work_hours` profile field. -/
structure WorkHours where
  start : HM
  end_ : HM
  variance_minutes : Nat
deriving DecidableEq

/-- One weekend sub-schedule (`start`/`end` times). -/
structure WeekendSched where
  start : HM
  end_ : HM
deriving DecidableEq

/-- `weekend_schedule` profile field: optional Saturday and Sunday
sub-schedules. -/
structure WeekendSchedule where
  saturday : Option WeekendSched
  sunday : Option WeekendSched
deriving DecidableEq

/-- `afk_behavior` profile field; each pair is an inclusive range fed to
`random.randint`. -/
structure AfkBehavior where
  lunch_minutes : Nat × Nat
  coffee_breaks : Nat × Nat
  break_duration_minutes : Nat × Nat
deriving DecidableEq

/-- `apps` profile field: the three category lists. -/
structure Apps where
  productive : List String
  neutral : List String
  unproductive : List String
deriving DecidableEq

/-- `productivity` profile field (only `app_switches_per_day` is consumed
by the generator core). -/
structure Productivity where
  app_switches_per_day : Nat × Nat
deriving DecidableEq

/-- A user profile, as consumed by the generation functions. -/
structure UserProfile where
  username : String
  hostnames : List String
  work_hours : WorkHours
  weekend_activity : Bool
  weekend_schedule : WeekendSchedule
  afk_behavior : AfkBehavior
  apps : Apps
  productivity : Productivity
deriving DecidableEq

/-- A work session (`generate_work_session` result dict). -/
structure WorkSession where
  start : Int
  end_ : Int
  is_weekend : Bool
deriving DecidableEq

/-- A break interval dict (`type` is `"lunch"` or `"coffee"`); the same
shape is reused for the `work_segments` dicts of `generate_afk_statuses`
(whose `type` can also be `"work"`). -/
structure BreakInterval where
  start : Int
  end_ : Int
  type : String
deriving DecidableEq

/-- A window activity event dict. -/
structure Activity where
  app : String
  title : String
  duration : Int
  timestamp : Int
deriving DecidableEq

/-- An AFK status event dict (`status` is `"active"`, `"idle"` or
`"afk"`). -/
structure AfkEvent where
  status : String
  duration : Int
  timestamp : Int
deriving DecidableEq

/-- A daily metrics record. -/
structure DailyMetric where
  date : Date
  active_seconds : Int
  idle_seconds : Int
  afk_seconds : Int
  app_switches : Nat
  utilization_ratio : ℚ
  timestamp : Int
deriving DecidableEq

/-- The applicable weekend sub-schedule for a date
(`weekend_schedule.get(day_name)` of the source). -/
def weekend_sched_of (p : UserProfile) (d : Date) : Option WeekendSched :=
  if weekday d = 5 then p.weekend_schedule.saturday else p.weekend_schedule.sunday

/-- `generate_work_session`: `none` in the first component means "no work
this day".  On a weekday the nominal window is shifted by two independent
`randint (-variance) variance` minute draws; the weekend branch consumes
no randomness.  (`randint` cannot raise here because `-v ≤ v` always
holds, so the `none => (none, g)` arms below are unreachable.) -/
def generate_work_session (p : UserProfile) (d : Date) (g : Rng) :
    Option WorkSession × Rng :=
  if is_weekend d then
    if p.weekend_activity = false then (none, g)
    else
      match weekend_sched_of p d with
      | none => (none, g)
      | some sched =>
        (some ⟨day_start d + hm_seconds sched.start,
               day_start d + hm_seconds sched.end_, true⟩, g)
  else
    match randint (-(p.work_hours.variance_minutes : Int))
        (p.work_hours.variance_minutes : Int) g with
    | none => (none, g)
    | some (start_variance, g1) =>
      match randint (-(p.work_hours.variance_minutes : Int))
          (p.work_hours.variance_minutes : Int) g1 with
      | none => (none, g1)
      | some (end_variance, g2) =>
        (some ⟨day_start d + hm_seconds p.work_hours.start + start_variance * 60,
               day_start d + hm_seconds p.work_hours.end_ + end_variance * 60,
               false⟩, g2)

/-- The overlap test of `generate_breaks`:
`break_start < existing['end'] and break_end > existing['start']` for
some existing break. -/
def overlapsAny (bstart bend : Int) (breaks : List BreakInterval) : Bool :=
  breaks.any (fun b => decide (bstart < b.end_) && decide (b.start < bend))

/-- The `while attempts < 10` placement loop for one coffee break of
`break_duration` minutes: draw an offset in
`[0, work_duration - 60 * break_duration]` (raising -- `none` -- when that
interval is empty), accept it if it overlaps no existing break, else
retry; after the attempts are exhausted the break is silently dropped. -/
def place_coffee (wstart work_duration break_duration : Int)
    (breaks : List BreakInterval) : Nat → Rng → Option (List BreakInterval × Rng)
  | 0, g => some (breaks, g)
  | attempts + 1, g =>
    match randint 0 (work_duration - break_duration * 60) g with
    | none => none
    | some (break_offset, g1) =>
      let break_start := wstart + break_offset
      if overlapsAny break_start (break_start + break_duration * 60) breaks then
        place_coffee wstart work_duration break_duration breaks attempts g1
      else
        some (breaks ++ [⟨break_start, break_start + break_duration * 60, "coffee"⟩], g1)

/-- The `for _ in range(num_breaks)` loop of `generate_breaks`: draw a
duration from the profile range, then attempt placement (10 attempts). -/
def coffee_loop (p : UserProfile) (wstart work_duration : Int) :
    Nat → List BreakInterval → Rng → Option (List BreakInterval × Rng)
  | 0, breaks, g => some (breaks, g)
  | n + 1, breaks, g =>
    match randint (p.afk_behavior.break_duration_minutes.1 : Int)
        (p.afk_behavior.break_duration_minutes.2 : Int) g with
    | none => none
    | some (break_duration, g1) =>
      match place_coffee wstart work_duration break_duration breaks 10 g1 with
      | none => none
      | some (breaks1, g2) => coffee_loop p wstart work_duration n breaks1 g2

/-- `generate_breaks`: lunch (only when the session exceeds 4 hours,
placed at an offset drawn from `[int(0.3 d), int(0.5 d)]`), then the
coffee breaks, then a stable sort by start time. -/
def generate_breaks (p : UserProfile) (ws : WorkSession) (g : Rng) :
    Option (List BreakInterval × Rng) :=
  let work_duration := (ws.end_ - ws.start) % 86400
  let lunch_step : Option (List BreakInterval × Rng) :=
    if 4 * 3600 < work_duration then
      match randint (p.afk_behavior.lunch_minutes.1 : Int)
          (p.afk_behavior.lunch_minutes.2 : Int) g with
      | none => none
      | some (lunch_duration, g1) =>
        match randint (work_duration * 3 / 10) (work_duration * 5 / 10) g1 with
        | none => none
        | some (lunch_start_offset, g2) =>
          some ([⟨ws.start + lunch_start_offset,
                  ws.start + lunch_start_offset + lunch_duration * 60,
                  "lunch"⟩], g2)
    else some ([], g)
  match lunch_step with
  | none => none
  | some (breaks0, g1) =>
    match randint (p.afk_behavior.coffee_breaks.1 : Int)
        (p.afk_behavior.coffee_breaks.2 : Int) g1 with
    | none => none
    | some (num_breaks, g2) =>
      match coffee_loop p ws.start work_duration num_breaks.toNat breaks0 g2 with
      | none => none
      | some (breaks1, g3) =>
        some (breaks1.insertionSort (fun a b => a.start ≤ b.start), g3)

/-- The static `WINDOW_TITLES` pool ( `none` when the app has no pool). -/
def WINDOW_TITLES (app : String) : Option (List String) :=
  match app with
  | "VSCode" => some ["main.go - VSCode", "api.py - VSCode", "README.md - VSCode",
      "config.json - VSCode", "test_utils.py - VSCode", "server.js - VSCode"]
  | "Terminal" => some ["Terminal", "bash", "npm run dev", "git status", "docker ps"]
  | "Chrome" => some ["Gmail - Chrome", "Google Search - Chrome", "Stack Overflow - Chrome",
      "GitHub - Chrome", "Documentation - Chrome", "AWS Console - Chrome"]
  | "Slack" => some ["#general - Slack", "#engineering - Slack", "#random - Slack",
      "Direct Messages - Slack"]
  | "Outlook" => some ["Inbox - Outlook", "Calendar - Outlook", "Meeting Request - Outlook"]
  | "Excel" => some ["Budget 2025.xlsx - Excel", "Report.xlsx - Excel", "Data.xlsx - Excel"]
  | "Xero" => some ["Dashboard - Xero", "Invoices - Xero", "Reports - Xero"]
  | "Teams" => some ["Team Chat - Teams", "Meeting - Teams", "Files - Teams"]
  | "DocuSign" => some ["Documents - DocuSign", "Sign Document - DocuSign"]
  | "Salesforce" => some ["Leads - Salesforce", "Opportunities - Salesforce",
      "Dashboard - Salesforce"]
  | "Zoom" => some ["Meeting - Zoom", "Zoom Call"]
  | "Calendar" => some ["Calendar", "Week View - Calendar"]
  | "Zendesk" => some ["Tickets - Zendesk", "Customer Support - Zendesk"]
  | "Figma" => some ["Design Project - Figma", "Wireframes - Figma", "Prototype - Figma"]
  | "Photoshop" => some ["Banner Design - Photoshop", "Logo - Photoshop"]
  | "Reddit" => some ["Reddit - Front Page", "r/programming - Reddit"]
  | "YouTube" => some ["YouTube", "Watch - YouTube"]
  | "Twitter" => some ["Twitter", "Home - Twitter"]
  | "Spotify" => some ["Spotify - Now Playing", "Playlists - Spotify"]
  | "Instagram" => some ["Instagram", "Feed - Instagram"]
  | _ => none

/-- `get_window_title`: a `random.choice` from the app's title pool
(consuming one draw) or the app name itself when no pool exists. -/
def get_window_title (app : String) (g : Rng) : String × Rng :=
  match WINDOW_TITLES app with
  | some titles => (titles.getD (g.draws g.idx % titles.length) "", ⟨g.draws, g.idx + 1⟩)
  | none => (app, g)

/-- `avg_switches = sum(app_switches_range) / 2` (exact rational). -/
def avg_switches (p : UserProfile) : ℚ :=
  ((p.productivity.app_switches_per_day.1 : ℚ) +
    (p.productivity.app_switches_per_day.2 : ℚ)) / 2

/-- The event-duration draw of `generate_window_activities`, selected by
the persona's average switch count. -/
def draw_duration (p : UserProfile) (g : Rng) : Option (Int × Rng) :=
  if 80 < avg_switches p then randint 30 180 g
  else if 50 < avg_switches p then randint 60 300 g
  else randint 180 900 g

/-- `remaining_time`: `(end - cur).seconds`, further clipped to the first
upcoming break (the first list entry with `start > cur`). -/
def remaining_time (breaks : List BreakInterval) (end_time current_time : Int) : Int :=
  let r0 := (end_time - current_time) % 86400
  match breaks.find? (fun b => decide (current_time < b.start)) with
  | some nb => min r0 ((nb.start - current_time) % 86400)
  | none => r0

/-- The app-switch step run after each emitted event: with probability
`min(0.7, avg/100)` redraw the current app by `random.choices`. -/
def maybe_switch (p : UserProfile) (all_apps : List String) (app_weights : List Nat)
    (current_app : String) (g : Rng) : Option (String × Rng) :=
  let qg := pyrandom g
  if qg.1 < min (7 / 10 : ℚ) (avg_switches p / 100) then
    choices all_apps app_weights qg.2
  else some (current_app, qg.2)

/-- The `while current_time < end_time` loop of
`generate_window_activities`, with fuel.  An iteration that makes no
progress (clipped duration `≤ 0`, possible only for sessions of a day or
longer) loops forever in the source; here it burns fuel until `none`. -/
def gen_loop (p : UserProfile) (breaks : List BreakInterval) (all_apps : List String)
    (app_weights : List Nat) (end_time : Int) :
    Nat → Int → String → Rng → Option (List Activity × Rng)
  | 0, _, _, _ => none
  | fuel + 1, current_time, current_app, g =>
    if current_time < end_time then
      match breaks.find? (fun b =>
          decide (b.start ≤ current_time) && decide (current_time < b.end_)) with
      | some brk =>
        gen_loop p breaks all_apps app_weights end_time fuel brk.end_ current_app g
      | none =>
        match draw_duration p g with
        | none => none
        | some (dur0, g1) =>
          let duration := min dur0 (remaining_time breaks end_time current_time)
          if 0 < duration then
            let tg := get_window_title current_app g1
            match maybe_switch p all_apps app_weights current_app tg.2 with
            | none => none
            | some (next_app, g2) =>
              match gen_loop p breaks all_apps app_weights end_time fuel
                  (current_time + duration) next_app g2 with
              | none => none
              | some (acts, g3) =>
                some (⟨current_app, tg.1, duration, current_time⟩ :: acts, g3)
          else gen_loop p breaks all_apps app_weights end_time fuel
            current_time current_app g
    else some ([], g)

/-- `generate_window_activities`: build the app list (with the
`['Chrome']` fallback) and per-app weights 3/2/1, draw the initial app,
then run the loop.  The fuel bound covers every terminating run of the
source loop, since each of its iterations advances the cursor by at
least one second. -/
def generate_window_activities (p : UserProfile) (ws : WorkSession)
    (breaks : List BreakInterval) (g : Rng) : Option (List Activity × Rng) :=
  let all_apps0 := p.apps.productive ++ p.apps.neutral ++ p.apps.unproductive
  let all_apps := if all_apps0 = [] then ["Chrome"] else all_apps0
  let app_weights := List.replicate p.apps.productive.length 3 ++
    List.replicate p.apps.neutral.length 2 ++
    List.replicate p.apps.unproductive.length 1
  match choices all_apps app_weights g with
  | none => none
  | some (current_app, g1) =>
    gen_loop p breaks all_apps app_weights ws.end_
      ((ws.end_ - ws.start).toNat + 1) ws.start current_app g1

/-- The `work_segments` timeline of `generate_afk_statuses`: gaps between
the (sorted) breaks become `"work"` segments, interleaved with the breaks
themselves, plus a final segment up to the session end. -/
def segs_loop (last_end end_time : Int) : List BreakInterval → List BreakInterval
  | [] => if last_end < end_time then [⟨last_end, end_time, "work"⟩] else []
  | brk :: rest =>
    (if last_end < brk.start then [⟨last_end, brk.start, "work"⟩] else []) ++
      ⟨brk.start, brk.end_, brk.type⟩ :: segs_loop brk.end_ end_time rest

/-- Map the segments to status events: `"work"` becomes `active` (only
when the duration is positive), `"lunch"` becomes `afk`, anything else
(coffee) becomes `idle` when shorter than 600 s, else `afk`. -/
def statuses_of : List BreakInterval → List AfkEvent
  | [] => []
  | seg :: rest =>
    let duration := seg.end_ - seg.start
    if seg.type = "work" then
      if 0 < duration then ⟨"active", duration, seg.start⟩ :: statuses_of rest
      else statuses_of rest
    else if seg.type = "lunch" then ⟨"afk", duration, seg.start⟩ :: statuses_of rest
    else if duration < 600 then ⟨"idle", duration, seg.start⟩ :: statuses_of rest
    else ⟨"afk", duration, seg.start⟩ :: statuses_of rest

/-- `generate_afk_statuses` (the `activities` argument is accepted and
ignored, as in the source). -/
def generate_afk_statuses (ws : WorkSession) (breaks : List BreakInterval)
    (_activities : List Activity) : List AfkEvent :=
  statuses_of (segs_loop ws.start ws.end_ breaks)

/-- The `app_switches` counting loop of `calculate_daily_metrics`.
Python's `if last_app and last_app != activity['app']` treats both
`None` and the empty string as falsy, so an empty-string previous app
never counts as a switch. -/
def count_app_switches : Option String → List Activity → Nat
  | _, [] => 0
  | last_app, a :: rest =>
    (match last_app with
     | some la => if la ≠ "" ∧ la ≠ a.app then 1 else 0
     | none => 0) + count_app_switches (some a.app) rest

/-- Round half to even (`Python round()` on an exact value). -/
def round_half_even (x : ℚ) : Int :=
  if x - (⌊x⌋ : ℚ) < 1 / 2 then ⌊x⌋
  else if 1 / 2 < x - (⌊x⌋ : ℚ) then ⌊x⌋ + 1
  else if ⌊x⌋ % 2 = 0 then ⌊x⌋ else ⌊x⌋ + 1

/-- `round(x, 4)` on an exact rational. -/
def pyround4 (x : ℚ) : ℚ := ((round_half_even (x * 10000) : Int) : ℚ) / 10000

/-- Sum of the `duration` fields of a status list. -/
def sum_durations (statuses : List AfkEvent) : Int :=
  (statuses.map (fun s => s.duration)).sum

/-- `calculate_daily_metrics`. -/
def calculate_daily_metrics (date : Date) (afk_statuses : List AfkEvent)
    (activities : List Activity) : DailyMetric :=
  let active_seconds := sum_durations (afk_statuses.filter (fun s => s.status = "active"))
  let idle_seconds := sum_durations (afk_statuses.filter (fun s => s.status = "idle"))
  let afk_seconds := sum_durations (afk_statuses.filter (fun s => s.status = "afk"))
  let total_seconds := active_seconds + idle_seconds + afk_seconds
  let utilization_ratio : ℚ :=
    if 0 < total_seconds then (active_seconds : ℚ) / (total_seconds : ℚ) else 0
  { date := date
    active_seconds := active_seconds
    idle_seconds := idle_seconds
    afk_seconds := afk_seconds
    app_switches := count_app_switches none activities
    utilization_ratio := pyround4 utilization_ratio
    timestamp := day_start date + 86399 }

/-- Python `str.replace` for a single-character pattern (strings are
modelled as `List Char`). -/
def pyReplace : List Char → Char → List Char → List Char
  | [], _, _ => []
  | c :: rest, t, r =>
    if c = t then r ++ pyReplace rest t r else c :: pyReplace rest t r

/-- `escape_lp_tag`: backslash-escape `,`, `=` and space (three
sequential `replace` calls of the source). -/
def escape_lp_tag (s : List Char) : List Char :=
  pyReplace (pyReplace (pyReplace s ',' ['\\', ',']) '=' ['\\', '=']) ' ' ['\\', ' ']

/-- `escape_lp_string`: double-quote the string, backslash-escaping `\`
then `"`. -/
def escape_lp_string (s : List Char) : List Char :=
  '"' :: (pyReplace (pyReplace s '\\' ['\\', '\\']) '"' ['\\', '"']) ++ ['"']

/-- Modelled from the spec: the line-protocol tag-value decoder (the
consumer side of §6, not part of src/): a backslash escapes a following
comma, equals sign or space; any other backslash is literal. -/
def unescape_lp_tag : List Char → List Char
  | [] => []
  | [c] => [c]
  | c1 :: c2 :: rest =>
    if c1 = '\\' ∧ (c2 = ',' ∨ c2 = '=' ∨ c2 = ' ') then c2 :: unescape_lp_tag rest
    else c1 :: unescape_lp_tag (c2 :: rest)
termination_by l => l.length

/-- Modelled from the spec: the decoder of the quoted-string field body:
a backslash escapes a following backslash or double quote. -/
def unescape_lp_string : List Char → List Char
  | [] => []
  | [c] => [c]
  | c1 :: c2 :: rest =>
    if c1 = '\\' ∧ (c2 = '\\' ∨ c2 = '"') then c2 :: unescape_lp_string rest
    else c1 :: unescape_lp_string (c2 :: rest)
termination_by l => l.length

/-- Modelled from the spec: the parser of a quoted string field (§6):
strip the surrounding double quotes and decode the body. -/
def parse_lp_string (l : List Char) : Option (List Char) :=
  match l with
  | c :: rest =>
    if c = '"' ∧ rest ≠ [] ∧ rest.getLast? = some '"' then
      some (unescape_lp_string rest.dropLast)
    else none
  | [] => none

/-- A time instant lies inside one of the activity events (each event
covering `[timestamp, timestamp + duration)`). -/
def coveredActs (t : Int) (acts : List Activity) : Prop :=
  ∃ a ∈ acts, a.timestamp ≤ t ∧ t < a.timestamp + a.duration

/-- A time instant lies inside one of the break intervals
(`[start, end)`). -/
def coveredBreaks (t : Int) (breaks : List BreakInterval) : Prop :=
  ∃ b ∈ breaks, b.start ≤ t ∧ t < b.end_

/-- A fixed all-zero draw stream, used for concrete evaluations. -/
def rng0 : Rng := ⟨fun _ => 0, 0⟩

/-- A profile whose three app lists are all empty (other fields are
arbitrary but well formed). -/
def emptyAppsProfile : UserProfile :=
  { username := "u"
    hostnames := ["h"]
    work_hours := ⟨⟨9, 0⟩, ⟨17, 0⟩, 0⟩
    weekend_activity := false
    weekend_schedule := ⟨none, none⟩
    afk_behavior := ⟨(30, 30), (0, 0), (5, 10)⟩
    apps := ⟨[], [], []⟩
    productivity := ⟨(40, 40)⟩ }

/-- C10: when the productive, neutral and unproductive app lists are all
empty, `generate_window_activities` raises on its very first app draw
(the `'Chrome'` fallback fills the population but the weight list stays
empty, so `random.choices` is called with mismatched lengths) and no
event is ever produced (`none` models the exception). -/
theorem claim_C10 (p : UserProfile) (ws : WorkSession) (breaks : List BreakInterval)
    (g : Rng) (hprod : p.apps.productive = []) (hneut : p.apps.neutral = [])
    (hunprod : p.apps.unproductive = []) (_hne : ws.start < ws.end_) :
    generate_window_activities p ws breaks g = none := by
  simp [generate_window_activities, hprod, hneut, hunprod, choices]

/-- Witness for C10 at a concrete profile, session and stream. -/
theorem claim_C10_witness :
    generate_window_activities emptyAppsProfile ⟨0, 100, false⟩ [] rng0 = none :=
  claim_C10 emptyAppsProfile ⟨0, 100, false⟩ [] rng0 rfl rfl rfl (by decide)

theorem round_half_even_nonneg {x : ℚ} (hx : 0 ≤ x) : 0 ≤ round_half_even x := by
  unfold round_half_even
  have hf : (0 : Int) ≤ ⌊x⌋ := Int.floor_nonneg.mpr hx
  split_ifs <;> omega

theorem round_half_even_le {x : ℚ} {N : Int} (hx : x ≤ (N : ℚ)) :
    round_half_even x ≤ N := by
  unfold round_half_even
  have hf : ⌊x⌋ ≤ N := by
    have := Int.floor_le_floor hx
    simpa using this
  split_ifs with h1 h2 h3
  · exact hf
  all_goals
  · -- in these branches `x - ⌊x⌋ ≥ 1/2`, so `⌊x⌋ < N`
    have hr : (1 / 2 : ℚ) ≤ x - (⌊x⌋ : ℚ) := le_of_not_lt h1
    have hfN : ⌊x⌋ ≠ N := by
      intro hEq
      rw [hEq] at hr
      have : x ≤ (N : ℚ) := hx
      nlinarith
    omega

theorem pyround4_nonneg {x : ℚ} (hx : 0 ≤ x) : 0 ≤ pyround4 x := by
  unfold pyround4
  have h : (0 : Int) ≤ round_half_even (x * 10000) :=
    round_half_even_nonneg (by positivity)
  positivity

theorem pyround4_le_one {x : ℚ} (hx : x ≤ 1) : pyround4 x ≤ 1 := by
  unfold pyround4
  have h : round_half_even (x * 10000) ≤ (10000 : Int) := by
    apply round_half_even_le
    push_cast
    nlinarith
  rw [div_le_one (by norm_num)]
  exact_mod_cast h

theorem pyround4_zero : pyround4 0 = 0 := by
  norm_num [pyround4, round_half_even]

/-- C7: for every `DailyMetricRecord` built from status events with
nonnegative durations, `utilization_ratio` lies in `[0, 1]`; it is `0`
when the active+idle+afk total is zero, and otherwise equals
active/total rounded (half-even) to 4 decimal digits. -/
theorem claim_C7 (date : Date) (statuses : List AfkEvent) (acts : List Activity)
    (hnn : ∀ s ∈ statuses, 0 ≤ s.duration) :
    0 ≤ (calculate_daily_metrics date statuses acts).utilization_ratio ∧
    (calculate_daily_metrics date statuses acts).utilization_ratio ≤ 1 ∧
    ((calculate_daily_metrics date statuses acts).active_seconds +
        (calculate_daily_metrics date statuses acts).idle_seconds +
        (calculate_daily_metrics date statuses acts).afk_seconds = 0 →
      (calculate_daily_metrics date statuses acts).utilization_ratio = 0) ∧
    ((calculate_daily_metrics date statuses acts).active_seconds +
        (calculate_daily_metrics date statuses acts).idle_seconds +
        (calculate_daily_metrics date statuses acts).afk_seconds ≠ 0 →
      (calculate_daily_metrics date statuses acts).utilization_ratio =
        pyround4 (((calculate_daily_metrics date statuses acts).active_seconds : ℚ) /
          (((calculate_daily_metrics date statuses acts).active_seconds +
            (calculate_daily_metrics date statuses acts).idle_seconds +
            (calculate_daily_metrics date statuses acts).afk_seconds : Int) : ℚ))) := by
  have hsub : ∀ (pred : AfkEvent → Bool),
      0 ≤ sum_durations (statuses.filter pred) := by
    intro pred
    apply List.sum_nonneg
    intro x hx
    simp only [List.mem_map] at hx
    obtain ⟨s, hs, rfl⟩ := hx
    exact hnn s (List.mem_of_mem_filter hs)
  simp only [calculate_daily_metrics]
  set A := sum_durations (statuses.filter (fun s => s.status = "active")) with hA
  set I := sum_durations (statuses.filter (fun s => s.status = "idle")) with hI
  set K := sum_durations (statuses.filter (fun s => s.status = "afk")) with hK
  have hA0 : 0 ≤ A := hsub _
  have hI0 : 0 ≤ I := hsub _
  have hK0 : 0 ≤ K := hsub _
  by_cases htot : 0 < A + I + K
  · have hratio0 : (0 : ℚ) ≤ (A : ℚ) / ((A + I + K : Int) : ℚ) := by
      apply div_nonneg <;> exact_mod_cast by omega
    have hratio1 : (A : ℚ) / ((A + I + K : Int) : ℚ) ≤ 1 := by
      rw [div_le_one (by exact_mod_cast htot)]
      exact_mod_cast by omega
    refine ⟨?_, ?_, ?_, ?_⟩
    · simp only [if_pos htot]
      exact pyround4_nonneg hratio0
    · simp only [if_pos htot]
      exact pyround4_le_one hratio1
    · intro h; omega
    · intro _
      simp only [if_pos htot]
  · have htz : A + I + K = 0 := by omega
    have hneg : ¬ (0 : Int) < A + I + K := htot
    refine ⟨?_, ?_, ?_, ?_⟩
    · simp only [if_neg hneg, pyround4_zero]; norm_num
    · simp only [if_neg hneg, pyround4_zero]; norm_num
    · intro _; simp only [if_neg hneg, pyround4_zero]
    · intro h; exact absurd htz h

/-- Witness for C7 at a concrete record. -/
theorem claim_C7_witness :
    (∀ s ∈ [(⟨"active", 10, 0⟩ : AfkEvent)], 0 ≤ s.duration) ∧
    0 ≤ (calculate_daily_metrics 0 [⟨"active", 10, 0⟩] []).utilization_ratio :=
  ⟨by decide, (claim_C7 0 [⟨"active", 10, 0⟩] [] (by decide)).1⟩

theorem statuses_of_active_pos :
    ∀ (segs : List BreakInterval) (s : AfkEvent), s ∈ statuses_of segs →
      s.status = "active" → 0 < s.duration := by
  intro segs
  induction segs with
  | nil => intro s hs; simp [statuses_of] at hs
  | cons seg rest ih =>
    intro s hs hst
    by_cases hw : seg.type = "work"
    · by_cases hd : 0 < seg.end_ - seg.start
      · simp only [statuses_of, if_pos hw, if_pos hd, List.mem_cons] at hs
        rcases hs with rfl | hs
        · exact hd
        · exact ih s hs hst
      · simp only [statuses_of, if_pos hw, if_neg hd] at hs
        exact ih s hs hst
    · by_cases hl : seg.type = "lunch"
      · simp only [statuses_of, if_neg hw, if_pos hl, List.mem_cons] at hs
        rcases hs with rfl | hs
        · simp at hst
        · exact ih s hs hst
      · by_cases hc : seg.end_ - seg.start < 600
        · simp only [statuses_of, if_neg hw, if_neg hl, if_pos hc, List.mem_cons] at hs
          rcases hs with rfl | hs
          · simp at hst
          · exact ih s hs hst
        · simp only [statuses_of, if_neg hw, if_neg hl, if_neg hc, List.mem_cons] at hs
          rcases hs with rfl | hs
          · simp at hst
          · exact ih s hs hst

theorem seg_mem_segs_loop :
    ∀ (bs : List BreakInterval) (last_end end_time : Int) (b : BreakInterval), b ∈ bs →
      (⟨b.start, b.end_, b.type⟩ : BreakInterval) ∈ segs_loop last_end end_time bs := by
  intro bs
  induction bs with
  | nil => intro _ _ b hb; simp at hb
  | cons b0 rest ih =>
    intro last_end end_time b hb
    rcases List.mem_cons.mp hb with rfl | hb
    · simp [segs_loop]
    · simp only [segs_loop, List.mem_append, List.mem_cons]
      right; right
      exact ih b0.end_ end_time b hb

theorem statuses_of_mem_mono {s : AfkEvent} :
    ∀ (seg : BreakInterval) (rest : List BreakInterval), s ∈ statuses_of rest →
      s ∈ statuses_of (seg :: rest) := by
  intro seg rest hs
  by_cases hw : seg.type = "work"
  · by_cases hd : 0 < seg.end_ - seg.start
    · simp only [statuses_of, if_pos hw, if_pos hd, List.mem_cons]; right; exact hs
    · simp only [statuses_of, if_pos hw, if_neg hd]; exact hs
  · by_cases hl : seg.type = "lunch"
    · simp only [statuses_of, if_neg hw, if_pos hl, List.mem_cons]; right; exact hs
    · by_cases hc : seg.end_ - seg.start < 600
      · simp only [statuses_of, if_neg hw, if_neg hl, if_pos hc, List.mem_cons]
        right; exact hs
      · simp only [statuses_of, if_neg hw, if_neg hl, if_neg hc, List.mem_cons]
        right; exact hs

theorem statuses_of_break_mem :
    ∀ (segs : List BreakInterval) (seg : BreakInterval), seg ∈ segs →
      seg.type = "lunch" ∨ seg.type = "coffee" →
      ∃ s ∈ statuses_of segs, s.timestamp = seg.start ∧ s.duration = seg.end_ - seg.start := by
  intro segs
  induction segs with
  | nil => intro seg hseg; simp at hseg
  | cons seg0 rest ih =>
    intro seg hseg hty
    rcases List.mem_cons.mp hseg with rfl | hseg
    · have hw : ¬ seg.type = "work" := by
        rcases hty with h | h <;> simp [h]
      rcases hty with hl | hc
      · exact ⟨⟨"afk", seg.end_ - seg.start, seg.start⟩, by
          simp only [statuses_of, if_neg hw, if_pos hl, List.mem_cons]
          exact Or.inl trivial, rfl, rfl⟩
      · have hl : ¬ seg.type = "lunch" := by simp [hc]
        by_cases hd : seg.end_ - seg.start < 600
        · exact ⟨⟨"idle", seg.end_ - seg.start, seg.start⟩, by
            simp only [statuses_of, if_neg hw, if_neg hl, if_pos hd, List.mem_cons]
            exact Or.inl trivial, rfl, rfl⟩
        · exact ⟨⟨"afk", seg.end_ - seg.start, seg.start⟩, by
            simp only [statuses_of, if_neg hw, if_neg hl, if_neg hd, List.mem_cons]
            exact Or.inl trivial, rfl, rfl⟩
    · obtain ⟨s, hs, h1, h2⟩ := ih seg hseg hty
      exact ⟨s, statuses_of_mem_mono seg0 rest hs, h1, h2⟩

/-- C6 (amended): the presence derivation omits zero-duration work
segments, but break segments are emitted unconditionally: every break of
the list yields a presence segment with the break's start and exact
(possibly zero) duration, so a zero-length lunch or coffee break does
produce a zero-duration segment. -/
theorem claim_C6_amended (ws : WorkSession) (breaks : List BreakInterval)
    (acts : List Activity)
    (hb : ∀ b ∈ breaks, b.type = "lunch" ∨ b.type = "coffee") :
    (∀ s ∈ generate_afk_statuses ws breaks acts, s.status = "active" → 0 < s.duration) ∧
    (∀ b ∈ breaks, ∃ s ∈ generate_afk_statuses ws breaks acts,
      s.timestamp = b.start ∧ s.duration = b.end_ - b.start) := by
  constructor
  · intro s hs hst
    exact statuses_of_active_pos _ s hs hst
  · intro b hbmem
    have hmem := seg_mem_segs_loop breaks ws.start ws.end_ b hbmem
    have := statuses_of_break_mem (segs_loop ws.start ws.end_ breaks)
      ⟨b.start, b.end_, b.type⟩ hmem (hb b hbmem)
    simpa using this

/-- Counterexample to C6 as stated: a zero-length lunch break yields a
`PresenceSegment` with `duration_seconds = 0` in the output. -/
theorem claim_C6_counterexample :
    (⟨"afk", 0, 100⟩ : AfkEvent) ∈
      generate_afk_statuses ⟨0, 1000, false⟩ [⟨100, 100, "lunch"⟩] [] := by
  decide

/-- Witness for C6 (amended) at a concrete session and break list. -/
theorem claim_C6_witness :
    (∀ b ∈ [(⟨100, 200, "lunch"⟩ : BreakInterval)],
      b.type = "lunch" ∨ b.type = "coffee") ∧
    (∀ s ∈ generate_afk_statuses ⟨0, 1000, false⟩ [⟨100, 200, "lunch"⟩] [],
      s.status = "active" → 0 < s.duration) :=
  ⟨by decide,
   (claim_C6_amended ⟨0, 1000, false⟩ [⟨100, 200, "lunch"⟩] [] (by decide)).1⟩

theorem randint_some {lo hi : Int} (h : lo ≤ hi) (g : Rng) :
    randint lo hi g =
      some (lo + (g.draws g.idx : Int) % (hi - lo + 1), ⟨g.draws, g.idx + 1⟩) :=
  if_pos h

theorem randint_none {lo hi : Int} (h : hi < lo) (g : Rng) : randint lo hi g = none :=
  if_neg (by omega)

theorem randint_bounds {lo hi v : Int} {g g' : Rng}
    (h : randint lo hi g = some (v, g')) : lo ≤ v ∧ v ≤ hi := by
  unfold randint at h
  split at h
  · rename_i hle
    have h1 : 0 ≤ (g.draws g.idx : Int) % (hi - lo + 1) :=
      Int.emod_nonneg _ (by omega)
    have h2 : (g.draws g.idx : Int) % (hi - lo + 1) < hi - lo + 1 :=
      Int.emod_lt_of_pos _ (by omega)
    simp only [Option.some.injEq, Prod.mk.injEq] at h
    omega
  · exact absurd h (by simp)

theorem place_coffee_raises (wstart wd bd : Int) (bs : List BreakInterval) (g : Rng)
    (n : Nat) (h : wd < bd * 60) : place_coffee wstart wd bd bs (n + 1) g = none := by
  simp only [place_coffee]
  rw [randint_none (by omega)]

theorem place_coffee_returns (wstart wd bd : Int) (h : bd * 60 ≤ wd) :
    ∀ (n : Nat) (bs : List BreakInterval) (g : Rng),
      ∃ r, place_coffee wstart wd bd bs n g = some r := by
  intro n
  induction n with
  | zero => exact fun bs g => ⟨(bs, g), rfl⟩
  | succ m ih =>
    intro bs g
    simp only [place_coffee]
    rw [randint_some (by omega) g]
    by_cases hov : overlapsAny (wstart + (0 + (g.draws g.idx : Int) % (wd - bd * 60 - 0 + 1)))
        (wstart + (0 + (g.draws g.idx : Int) % (wd - bd * 60 - 0 + 1)) + bd * 60) bs
    · simp only [hov, if_true]
      exact ih bs ⟨g.draws, g.idx + 1⟩
    · simp only [hov, if_false]
      exact ⟨_, rfl⟩

theorem coffee_loop_returns (p : UserProfile) (wstart wd : Int)
    (hwf : p.afk_behavior.break_duration_minutes.1 ≤ p.afk_behavior.break_duration_minutes.2)
    (hfit : (p.afk_behavior.break_duration_minutes.2 : Int) * 60 ≤ wd) :
    ∀ (n : Nat) (bs : List BreakInterval) (g : Rng),
      ∃ r, coffee_loop p wstart wd n bs g = some r := by
  intro n
  induction n with
  | zero => exact fun bs g => ⟨(bs, g), rfl⟩
  | succ m ih =>
    intro bs g
    simp only [coffee_loop]
    rw [randint_some (by exact_mod_cast hwf) g]
    have hbd : ((p.afk_behavior.break_duration_minutes.1 : Int) +
        (g.draws g.idx : Int) % ((p.afk_behavior.break_duration_minutes.2 : Int) -
          (p.afk_behavior.break_duration_minutes.1 : Int) + 1)) * 60 ≤ wd := by
      have h2 : (g.draws g.idx : Int) % ((p.afk_behavior.break_duration_minutes.2 : Int) -
          (p.afk_behavior.break_duration_minutes.1 : Int) + 1) <
          (p.afk_behavior.break_duration_minutes.2 : Int) -
          (p.afk_behavior.break_duration_minutes.1 : Int) + 1 :=
        Int.emod_lt_of_pos _ (by exact_mod_cast by omega)
      nlinarith
    obtain ⟨⟨bs1, g2⟩, hr⟩ := place_coffee_returns wstart wd _ hbd 10 bs ⟨g.draws, g.idx + 1⟩
    dsimp only
    rw [hr]
    exact ih bs1 g2

theorem place_coffee_raises_of_ne_zero (wstart wd bd : Int) (bs : List BreakInterval)
    (g : Rng) (n : Nat) (hn : n ≠ 0) (h : wd < bd * 60) :
    place_coffee wstart wd bd bs n g = none := by
  cases n with
  | zero => exact absurd rfl hn
  | succ m => exact place_coffee_raises wstart wd bd bs g m h

theorem coffee_loop_raises (p : UserProfile) (wstart wd : Int)
    (hwf : p.afk_behavior.break_duration_minutes.1 ≤ p.afk_behavior.break_duration_minutes.2)
    (hbig : wd < (p.afk_behavior.break_duration_minutes.1 : Int) * 60)
    (k : Nat) (bs : List BreakInterval) (g : Rng) :
    coffee_loop p wstart wd (k + 1) bs g = none := by
  simp only [coffee_loop]
  rw [randint_some (by exact_mod_cast hwf) g]
  dsimp only
  have h1 : 0 ≤ (g.draws g.idx : Int) % ((p.afk_behavior.break_duration_minutes.2 : Int) -
      (p.afk_behavior.break_duration_minutes.1 : Int) + 1) :=
    Int.emod_nonneg _ (by have := hwf; omega)
  have hlt : wd < ((p.afk_behavior.break_duration_minutes.1 : Int) +
      (g.draws g.idx : Int) % ((p.afk_behavior.break_duration_minutes.2 : Int) -
        (p.afk_behavior.break_duration_minutes.1 : Int) + 1)) * 60 := by nlinarith
  rw [place_coffee_raises_of_ne_zero _ _ _ _ _ 10 (by norm_num) hlt]

theorem generate_breaks_returns (p : UserProfile) (ws : WorkSession) (g : Rng)
    (hl : p.afk_behavior.lunch_minutes.1 ≤ p.afk_behavior.lunch_minutes.2)
    (hc : p.afk_behavior.coffee_breaks.1 ≤ p.afk_behavior.coffee_breaks.2)
    (hbd : p.afk_behavior.break_duration_minutes.1 ≤ p.afk_behavior.break_duration_minutes.2)
    (hfit : (p.afk_behavior.break_duration_minutes.2 : Int) * 60 ≤
      (ws.end_ - ws.start) % 86400) :
    ∃ r, generate_breaks p ws g = some r := by
  have hwd : 0 ≤ (ws.end_ - ws.start) % 86400 := Int.emod_nonneg _ (by norm_num)
  unfold generate_breaks
  dsimp only
  by_cases h4 : 4 * 3600 < (ws.end_ - ws.start) % 86400
  · rw [if_pos h4, randint_some (by exact_mod_cast hl) g]
    dsimp only
    rw [randint_some (by omega) (⟨g.draws, g.idx + 1⟩ : Rng)]
    dsimp only
    rw [randint_some (by exact_mod_cast hc) (⟨g.draws, g.idx + 1 + 1⟩ : Rng)]
    dsimp only
    obtain ⟨⟨bs1, g3⟩, hr⟩ := coffee_loop_returns p ws.start _ hbd hfit _ _
      (⟨g.draws, g.idx + 1 + 1 + 1⟩ : Rng)
    rw [hr]
    exact ⟨_, rfl⟩
  · rw [if_neg h4]
    dsimp only
    rw [randint_some (by exact_mod_cast hc) g]
    dsimp only
    obtain ⟨⟨bs1, g3⟩, hr⟩ := coffee_loop_returns p ws.start _ hbd hfit _ []
      (⟨g.draws, g.idx + 1⟩ : Rng)
    rw [hr]
    exact ⟨_, rfl⟩

theorem generate_breaks_raises (p : UserProfile) (ws : WorkSession) (g : Rng)
    (hl : p.afk_behavior.lunch_minutes.1 ≤ p.afk_behavior.lunch_minutes.2)
    (hc : p.afk_behavior.coffee_breaks.1 ≤ p.afk_behavior.coffee_breaks.2)
    (hbd : p.afk_behavior.break_duration_minutes.1 ≤ p.afk_behavior.break_duration_minutes.2)
    (hcnt : 1 ≤ p.afk_behavior.coffee_breaks.1)
    (hbig : (ws.end_ - ws.start) % 86400 <
      (p.afk_behavior.break_duration_minutes.1 : Int) * 60) :
    generate_breaks p ws g = none := by
  have hwd : 0 ≤ (ws.end_ - ws.start) % 86400 := Int.emod_nonneg _ (by norm_num)
  unfold generate_breaks
  dsimp only
  by_cases h4 : 4 * 3600 < (ws.end_ - ws.start) % 86400
  · rw [if_pos h4, randint_some (by exact_mod_cast hl) g]
    dsimp only
    rw [randint_some (by omega) (⟨g.draws, g.idx + 1⟩ : Rng)]
    dsimp only
    rw [randint_some (by exact_mod_cast hc) (⟨g.draws, g.idx + 1 + 1⟩ : Rng)]
    dsimp only
    have hpos : 0 < ((p.afk_behavior.coffee_breaks.1 : Int) +
        ((⟨g.draws, g.idx + 1 + 1⟩ : Rng).draws (g.idx + 1 + 1) : Int) %
          ((p.afk_behavior.coffee_breaks.2 : Int) -
            (p.afk_behavior.coffee_breaks.1 : Int) + 1)).toNat := by
      have h1 : 0 ≤ (((⟨g.draws, g.idx + 1 + 1⟩ : Rng).draws (g.idx + 1 + 1) : Int)) %
          ((p.afk_behavior.coffee_breaks.2 : Int) -
            (p.afk_behavior.coffee_breaks.1 : Int) + 1) :=
        Int.emod_nonneg _ (by omega)
      omega
    obtain ⟨k, hk⟩ := Nat.exists_eq_succ_of_ne_zero (Nat.pos_iff_ne_zero.mp hpos)
    rw [hk, coffee_loop_raises p ws.start _ hbd hbig k _ _]
  · rw [if_neg h4]
    dsimp only
    rw [randint_some (by exact_mod_cast hc) g]
    dsimp only
    have hpos : 0 < ((p.afk_behavior.coffee_breaks.1 : Int) +
        (g.draws g.idx : Int) % ((p.afk_behavior.coffee_breaks.2 : Int) -
          (p.afk_behavior.coffee_breaks.1 : Int) + 1)).toNat := by
      have h1 : 0 ≤ (g.draws g.idx : Int) % ((p.afk_behavior.coffee_breaks.2 : Int) -
          (p.afk_behavior.coffee_breaks.1 : Int) + 1) :=
        Int.emod_nonneg _ (by omega)
      omega
    obtain ⟨k, hk⟩ := Nat.exists_eq_succ_of_ne_zero (Nat.pos_iff_ne_zero.mp hpos)
    rw [hk, coffee_loop_raises p ws.start _ hbd hbig k _ _]

/-- C9: the break scheduler raises (`none`) whenever a drawn coffee-break
duration in seconds exceeds the session's duration: the inner placement
call `randint 0 (work_duration - 60 * duration)` is handed an empty
range and raises instead of silently dropping the break.  It returns
normally whenever every drawable duration fits (upper range bound fits),
and raises whenever the drawn duration cannot fit (lower range bound too
large) and at least one coffee break is requested. -/
theorem claim_C9 :
    (∀ (wstart wd bd : Int) (bs : List BreakInterval) (g : Rng) (n : Nat),
      wd < bd * 60 → place_coffee wstart wd bd bs (n + 1) g = none) ∧
    (∀ (wstart wd bd : Int) (bs : List BreakInterval) (g : Rng) (n : Nat),
      bd * 60 ≤ wd → ∃ r, place_coffee wstart wd bd bs n g = some r) ∧
    (∀ (p : UserProfile) (ws : WorkSession) (g : Rng),
      p.afk_behavior.lunch_minutes.1 ≤ p.afk_behavior.lunch_minutes.2 →
      p.afk_behavior.coffee_breaks.1 ≤ p.afk_behavior.coffee_breaks.2 →
      p.afk_behavior.break_duration_minutes.1 ≤ p.afk_behavior.break_duration_minutes.2 →
      (p.afk_behavior.break_duration_minutes.2 : Int) * 60 ≤ (ws.end_ - ws.start) % 86400 →
      ∃ r, generate_breaks p ws g = some r) ∧
    (∀ (p : UserProfile) (ws : WorkSession) (g : Rng),
      p.afk_behavior.lunch_minutes.1 ≤ p.afk_behavior.lunch_minutes.2 →
      p.afk_behavior.coffee_breaks.1 ≤ p.afk_behavior.coffee_breaks.2 →
      p.afk_behavior.break_duration_minutes.1 ≤ p.afk_behavior.break_duration_minutes.2 →
      1 ≤ p.afk_behavior.coffee_breaks.1 →
      (ws.end_ - ws.start) % 86400 < (p.afk_behavior.break_duration_minutes.1 : Int) * 60 →
      generate_breaks p ws g = none) :=
  ⟨fun wstart wd bd bs g n h => place_coffee_raises wstart wd bd bs g n h,
   fun wstart wd bd bs g n h => place_coffee_returns wstart wd bd h n bs g,
   fun p ws g h1 h2 h3 h4 => generate_breaks_returns p ws g h1 h2 h3 h4,
   fun p ws g h1 h2 h3 h4 h5 => generate_breaks_raises p ws g h1 h2 h3 h4 h5⟩

/-- Witness for C9 at concrete parameters: a 2-minute coffee break never
fits a 100-second session (raise), a 1-minute break always fits a
100-second... (it does not: 60 ≤ 100) and placement returns. -/
theorem claim_C9_witness :
    place_coffee 0 100 2 [] 10 rng0 = none ∧
    (∃ r, place_coffee 0 100 1 [] 10 rng0 = some r) :=
  ⟨claim_C9.1 0 100 2 [] rng0 9 (by norm_num),
   claim_C9.2.1 0 100 1 [] rng0 10 (by norm_num)⟩

/-- A weekend-active profile with nonzero variance and a Saturday
sub-schedule 10:00-14:00. -/
def weekendProfile : UserProfile :=
  { username := "w"
    hostnames := ["h"]
    work_hours := ⟨⟨9, 0⟩, ⟨17, 0⟩, 30⟩
    weekend_activity := true
    weekend_schedule := ⟨some ⟨⟨10, 0⟩, ⟨14, 0⟩⟩, none⟩
    afk_behavior := ⟨(30, 30), (0, 0), (5, 10)⟩
    apps := ⟨["Chrome"], [], []⟩
    productivity := ⟨(40, 40)⟩ }

theorem generate_work_session_weekday (p : UserProfile) (d : Date) (g : Rng)
    (hd : is_weekend d = false) :
    generate_work_session p d g =
      (some ⟨day_start d + hm_seconds p.work_hours.start +
          (-(p.work_hours.variance_minutes : Int) + (g.draws g.idx : Int) %
            ((p.work_hours.variance_minutes : Int) -
              -(p.work_hours.variance_minutes : Int) + 1)) * 60,
        day_start d + hm_seconds p.work_hours.end_ +
          (-(p.work_hours.variance_minutes : Int) + (g.draws (g.idx + 1) : Int) %
            ((p.work_hours.variance_minutes : Int) -
              -(p.work_hours.variance_minutes : Int) + 1)) * 60,
        false⟩, ⟨g.draws, g.idx + 1 + 1⟩) := by
  have hv : -(p.work_hours.variance_minutes : Int) ≤ (p.work_hours.variance_minutes : Int) := by
    omega
  simp only [generate_work_session, hd, Bool.false_eq_true, if_false]
  rw [randint_some hv g]
  dsimp only
  rw [randint_some hv (⟨g.draws, g.idx + 1⟩ : Rng)]

/-- C4 (amended): on weekdays the session bounds are the schedule times
shifted by two independently drawn integer minute offsets, each ranging
over the whole of `[-variance, variance]` (first conjunct: every run
produces such offsets; second conjunct: every offset pair is reachable
by a suitable draw stream).  On weekend days with an applicable
sub-schedule the session uses the sub-schedule times unchanged -- no
variance offset is applied and no randomness is consumed. -/
theorem claim_C4_amended (p : UserProfile) (d : Date) :
    (is_weekend d = false →
      (∀ g : Rng, ∃ o1 o2 : Int,
        -(p.work_hours.variance_minutes : Int) ≤ o1 ∧
        o1 ≤ (p.work_hours.variance_minutes : Int) ∧
        -(p.work_hours.variance_minutes : Int) ≤ o2 ∧
        o2 ≤ (p.work_hours.variance_minutes : Int) ∧
        generate_work_session p d g =
          (some ⟨day_start d + hm_seconds p.work_hours.start + o1 * 60,
                 day_start d + hm_seconds p.work_hours.end_ + o2 * 60, false⟩,
           ⟨g.draws, g.idx + 1 + 1⟩)) ∧
      (∀ o1 o2 : Int,
        -(p.work_hours.variance_minutes : Int) ≤ o1 →
        o1 ≤ (p.work_hours.variance_minutes : Int) →
        -(p.work_hours.variance_minutes : Int) ≤ o2 →
        o2 ≤ (p.work_hours.variance_minutes : Int) →
        ∃ g : Rng, generate_work_session p d g =
          (some ⟨day_start d + hm_seconds p.work_hours.start + o1 * 60,
                 day_start d + hm_seconds p.work_hours.end_ + o2 * 60, false⟩,
           ⟨g.draws, g.idx + 1 + 1⟩))) ∧
    (is_weekend d = true → p.weekend_activity = true →
      ∀ sched, weekend_sched_of p d = some sched →
      ∀ g : Rng, generate_work_session p d g =
        (some ⟨day_start d + hm_seconds sched.start,
               day_start d + hm_seconds sched.end_, true⟩, g)) := by
  constructor
  · intro hd
    constructor
    · intro g
      refine ⟨-(p.work_hours.variance_minutes : Int) + (g.draws g.idx : Int) %
          ((p.work_hours.variance_minutes : Int) -
            -(p.work_hours.variance_minutes : Int) + 1),
        -(p.work_hours.variance_minutes : Int) + (g.draws (g.idx + 1) : Int) %
          ((p.work_hours.variance_minutes : Int) -
            -(p.work_hours.variance_minutes : Int) + 1),
        ?_, ?_, ?_, ?_, generate_work_session_weekday p d g hd⟩
      · have := Int.emod_nonneg ((g.draws g.idx : Int))
          (show ((p.work_hours.variance_minutes : Int) -
            -(p.work_hours.variance_minutes : Int) + 1) ≠ 0 by omega)
        omega
      · have := Int.emod_lt_of_pos ((g.draws g.idx : Int))
          (show (0 : Int) < ((p.work_hours.variance_minutes : Int) -
            -(p.work_hours.variance_minutes : Int) + 1) by omega)
        omega
      · have := Int.emod_nonneg ((g.draws (g.idx + 1) : Int))
          (show ((p.work_hours.variance_minutes : Int) -
            -(p.work_hours.variance_minutes : Int) + 1) ≠ 0 by omega)
        omega
      · have := Int.emod_lt_of_pos ((g.draws (g.idx + 1) : Int))
          (show (0 : Int) < ((p.work_hours.variance_minutes : Int) -
            -(p.work_hours.variance_minutes : Int) + 1) by omega)
        omega
    · intro o1 o2 h1 h2 h3 h4
      refine ⟨⟨fun n => if n = 0 then
          (o1 + (p.work_hours.variance_minutes : Int)).toNat
        else (o2 + (p.work_hours.variance_minutes : Int)).toNat, 0⟩, ?_⟩
      rw [generate_work_session_weekday p d _ hd]
      simp only [Prod.mk.injEq, Option.some.injEq, WorkSession.mk.injEq]
      norm_num
      constructor
      · rw [sup_eq_left.mpr (by omega : (0 : Int) ≤ o1 + (p.work_hours.variance_minutes : Int)),
          Int.emod_eq_of_lt (by omega) (by omega)]
        omega
      · rw [sup_eq_left.mpr (by omega : (0 : Int) ≤ o2 + (p.work_hours.variance_minutes : Int)),
          Int.emod_eq_of_lt (by omega) (by omega)]
        omega
  · intro hd hact sched hsched g
    simp [generate_work_session, hd, hact, hsched]

/-- The claim C4 as stated, instantiated at one profile/date: every
minute offset in `[-variance, variance]` is attainable for the session
start relative to the applicable schedule start (given here in seconds
since midnight). -/
def claim_C4_uniform_at (p : UserProfile) (d : Date) (sched_start : Int) : Prop :=
  ∀ o1 : Int, -(p.work_hours.variance_minutes : Int) ≤ o1 →
    o1 ≤ (p.work_hours.variance_minutes : Int) →
    ∃ (g g2 : Rng) (ws : WorkSession),
      generate_work_session p d g = (some ws, g2) ∧
      ws.start = day_start d + sched_start + o1 * 60

/-- Counterexample to C4 as stated: on Saturday 1970-01-03 the weekend
profile's session start is always exactly the sub-schedule start
(10:00); the offset `-30` allowed by `variance_minutes = 30` is never
drawn, because the weekend branch applies no variance at all. -/
theorem claim_C4_counterexample : ¬ claim_C4_uniform_at weekendProfile 2 36000 := by
  intro h
  obtain ⟨g, g2, ws, heq, hstart⟩ := h (-30) (by decide) (by decide)
  have hall : generate_work_session weekendProfile 2 g = (some ⟨208800, 223200, true⟩, g) := rfl
  rw [hall] at heq
  have hws : ws = ⟨208800, 223200, true⟩ := by
    have := congrArg Prod.fst heq
    simpa using this.symm
  rw [hws] at hstart
  norm_num [day_start] at hstart

/-- Witness for C4 (amended) at a concrete weekday (Monday 1970-01-05)
and a concrete weekend day (Saturday 1970-01-03). -/
theorem claim_C4_witness :
    is_weekend 4 = false ∧
    (∃ o1 o2 : Int,
      -(weekendProfile.work_hours.variance_minutes : Int) ≤ o1 ∧
      o1 ≤ (weekendProfile.work_hours.variance_minutes : Int) ∧
      -(weekendProfile.work_hours.variance_minutes : Int) ≤ o2 ∧
      o2 ≤ (weekendProfile.work_hours.variance_minutes : Int) ∧
      generate_work_session weekendProfile 4 rng0 =
        (some ⟨day_start 4 + hm_seconds weekendProfile.work_hours.start + o1 * 60,
               day_start 4 + hm_seconds weekendProfile.work_hours.end_ + o2 * 60, false⟩,
         ⟨rng0.draws, rng0.idx + 1 + 1⟩)) :=
  ⟨by decide, ((claim_C4_amended weekendProfile 4).1 (by decide)).1 rng0⟩

theorem pyReplace_append (l1 l2 : List Char) (t : Char) (r : List Char) :
    pyReplace (l1 ++ l2) t r = pyReplace l1 t r ++ pyReplace l2 t r := by
  induction l1 with
  | nil => rfl
  | cons c rest ih =>
    by_cases h : c = t
    · simp [pyReplace, h, ih]
    · simp [pyReplace, h, ih]

/-- The per-character effect of the three sequential tag `replace`
calls. -/
def escTagChar (c : Char) : List Char :=
  if c = ',' then ['\\', ',']
  else if c = '=' then ['\\', '=']
  else if c = ' ' then ['\\', ' ']
  else [c]

theorem escape_lp_tag_nil : escape_lp_tag [] = [] := rfl

theorem escape_lp_tag_cons (c : Char) (s : List Char) :
    escape_lp_tag (c :: s) = escTagChar c ++ escape_lp_tag s := by
  by_cases h1 : c = ','
  · subst h1
    simp +decide [escape_lp_tag, escTagChar, pyReplace, pyReplace_append]
  · by_cases h2 : c = '='
    · subst h2
      simp +decide [escape_lp_tag, escTagChar, pyReplace, pyReplace_append]
    · by_cases h3 : c = ' '
      · subst h3
        simp +decide [escape_lp_tag, escTagChar, pyReplace, pyReplace_append]
      · simp [escape_lp_tag, escTagChar, pyReplace, pyReplace_append, h1, h2, h3]

theorem escape_lp_tag_eq_nil {s : List Char} (h : escape_lp_tag s = []) : s = [] := by
  cases s with
  | nil => rfl
  | cons c rest =>
    rw [escape_lp_tag_cons] at h
    exfalso
    unfold escTagChar at h
    split_ifs at h <;> simp at h

theorem escape_lp_tag_head (s : List Char) :
    escape_lp_tag s = [] ∨ (∃ rest, escape_lp_tag s = '\\' :: rest) ∨
      (∃ c rest, escape_lp_tag s = c :: rest ∧
        ¬ (c = ',' ∨ c = '=' ∨ c = ' ')) := by
  cases s with
  | nil => left; rfl
  | cons c rest =>
    rw [escape_lp_tag_cons]
    by_cases h1 : c = ','
    · right; left
      refine ⟨',' :: escape_lp_tag rest, ?_⟩
      simp [escTagChar, h1]
    · by_cases h2 : c = '='
      · right; left
        refine ⟨'=' :: escape_lp_tag rest, ?_⟩
        simp [escTagChar, h1, h2]
      · by_cases h3 : c = ' '
        · right; left
          refine ⟨' ' :: escape_lp_tag rest, ?_⟩
          simp [escTagChar, h1, h2, h3]
        · by_cases h4 : c = '\\'
          · right; left
            refine ⟨escape_lp_tag rest, ?_⟩
            simp [escTagChar, h1, h2, h3, h4]
          · right; right
            refine ⟨c, escape_lp_tag rest, ?_, by simp [h1, h2, h3]⟩
            simp [escTagChar, h1, h2, h3]

theorem tag_roundtrip : ∀ s : List Char, unescape_lp_tag (escape_lp_tag s) = s := by
  intro s
  induction s with
  | nil => simp [escape_lp_tag_nil, unescape_lp_tag]
  | cons c rest ih =>
    rw [escape_lp_tag_cons]
    by_cases h1 : c = ',' <;> [skip; by_cases h2 : c = '='] <;>
      [skip; skip; by_cases h3 : c = ' ']
    · subst h1
      simp +decide [escTagChar, unescape_lp_tag, ih]
    · subst h2
      simp +decide [escTagChar, unescape_lp_tag, ih]
    · subst h3
      simp +decide [escTagChar, unescape_lp_tag, ih]
    · have hesc : escTagChar c = [c] := by simp [escTagChar, h1, h2, h3]
      rw [hesc]
      rcases escape_lp_tag_head rest with hnil | ⟨r2, hr⟩ | ⟨c2, r2, hr, hc2⟩
      · rw [hnil]
        rw [escape_lp_tag_eq_nil hnil]
        simp [unescape_lp_tag]
      · rw [hr]
        rw [hr] at ih
        have hcond : ¬ (c = '\\' ∧ ('\\' = ',' ∨ '\\' = '=' ∨ '\\' = ' ')) := by
          simp +decide
        simp only [List.cons_append, List.nil_append, unescape_lp_tag, if_neg hcond]
        rw [ih]
      · rw [hr]
        rw [hr] at ih
        have hcond : ¬ (c = '\\' ∧ (c2 = ',' ∨ c2 = '=' ∨ c2 = ' ')) := by
          intro hh
          exact hc2 hh.2
        simp only [List.cons_append, List.nil_append, unescape_lp_tag, if_neg hcond]
        rw [ih]

/-- The per-character effect of the two sequential string-field
`replace` calls (backslashes first, then quotes). -/
def escStrChar (c : Char) : List Char :=
  if c = '\\' then ['\\', '\\']
  else if c = '"' then ['\\', '"']
  else [c]

/-- The body of `escape_lp_string`, without the surrounding quotes. -/
def escape_lp_string_body (s : List Char) : List Char :=
  pyReplace (pyReplace s '\\' ['\\', '\\']) '"' ['\\', '"']

theorem escape_lp_string_eq (s : List Char) :
    escape_lp_string s = '"' :: escape_lp_string_body s ++ ['"'] := rfl

theorem escape_lp_string_body_cons (c : Char) (s : List Char) :
    escape_lp_string_body (c :: s) = escStrChar c ++ escape_lp_string_body s := by
  by_cases h1 : c = '\\'
  · subst h1
    simp +decide [escape_lp_string_body, escStrChar, pyReplace, pyReplace_append]
  · by_cases h2 : c = '"'
    · subst h2
      simp +decide [escape_lp_string_body, escStrChar, pyReplace, pyReplace_append]
    · simp [escape_lp_string_body, escStrChar, pyReplace, pyReplace_append, h1, h2]

theorem escape_lp_string_body_eq_nil {s : List Char}
    (h : escape_lp_string_body s = []) : s = [] := by
  cases s with
  | nil => rfl
  | cons c rest =>
    rw [escape_lp_string_body_cons] at h
    exfalso
    unfold escStrChar at h
    split_ifs at h <;> simp at h

theorem string_body_roundtrip :
    ∀ s : List Char, unescape_lp_string (escape_lp_string_body s) = s := by
  intro s
  induction s with
  | nil => simp [escape_lp_string_body, pyReplace, unescape_lp_string]
  | cons c rest ih =>
    rw [escape_lp_string_body_cons]
    by_cases h1 : c = '\\'
    · subst h1
      simp +decide [escStrChar, unescape_lp_string, ih]
    · by_cases h2 : c = '"'
      · subst h2
        simp +decide [escStrChar, unescape_lp_string, ih]
      · have hesc : escStrChar c = [c] := by simp [escStrChar, h1, h2]
        rw [hesc]
        cases hbody : escape_lp_string_body rest with
        | nil =>
          rw [escape_lp_string_body_eq_nil hbody]
          simp [unescape_lp_string]
        | cons c2 r2 =>
          rw [hbody] at ih
          have hcond : ¬ (c = '\\' ∧ (c2 = '\\' ∨ c2 = '"')) := by
            intro hh
            exact h1 hh.1
          simp only [List.cons_append, List.nil_append, unescape_lp_string, if_neg hcond]
          rw [ih]

theorem string_roundtrip (t : List Char) :
    parse_lp_string (escape_lp_string t) = some t := by
  rw [escape_lp_string_eq]
  show (if ('"' : Char) = '"' ∧ (escape_lp_string_body t ++ ['"'] : List Char) ≠ [] ∧
      (escape_lp_string_body t ++ ['"']).getLast? = some '"' then
      some (unescape_lp_string (escape_lp_string_body t ++ ['"']).dropLast)
    else none) = some t
  rw [if_pos ⟨rfl, by simp, by rw [List.getLast?_concat]⟩]
  rw [List.dropLast_concat]
  rw [string_body_roundtrip]

/-- C8: encoding then decoding recovers the original exactly: any tag
value containing a comma, equals sign or space survives the tag
escape/unescape round trip, and any title containing a double quote or a
backslash survives the quoted string-field encode/parse round trip.
(The decoders are modelled from the spec, SS6; in fact the round trips
hold for all strings.) -/
theorem claim_C8 (s t : List Char)
    (_hs : ',' ∈ s ∨ '=' ∈ s ∨ ' ' ∈ s)
    (_ht : '"' ∈ t ∨ '\\' ∈ t) :
    unescape_lp_tag (escape_lp_tag s) = s ∧
    parse_lp_string (escape_lp_string t) = some t :=
  ⟨tag_roundtrip s, string_roundtrip t⟩

/-- Witness for C8 at concrete strings containing the special
characters. -/
theorem claim_C8_witness :
    (',' ∈ [',', 'a'] ∨ '=' ∈ [',', 'a'] ∨ ' ' ∈ [',', 'a']) ∧
    ('"' ∈ ['"', '\\'] ∨ '\\' ∈ ['"', '\\']) ∧
    unescape_lp_tag (escape_lp_tag [',', 'a']) = [',', 'a'] ∧
    parse_lp_string (escape_lp_string ['"', '\\']) = some ['"', '\\'] :=
  ⟨by decide, by decide,
   (claim_C8 [',', 'a'] ['"', '\\'] (by decide) (by decide)).1,
   (claim_C8 [',', 'a'] ['"', '\\'] (by decide) (by decide)).2⟩

/-- Two break intervals do not overlap, in the sense of the scheduler's
acceptance test (negation of
`a.start < b.end and b.start < a.end`). -/
def disjB (a b : BreakInterval) : Prop := a.end_ ≤ b.start ∨ b.end_ ≤ a.start

theorem disjB_symm : ∀ {a b : BreakInterval}, disjB a b → disjB b a := by
  intro a b h
  exact h.symm

theorem overlapsAny_eq_false {bstart bend : Int} {bs : List BreakInterval}
    (h : overlapsAny bstart bend bs = false) :
    ∀ b ∈ bs, b.end_ ≤ bstart ∨ bend ≤ b.start := by
  intro b hb
  have h2 := List.any_eq_false.mp h b hb
  simp only [Bool.and_eq_true, decide_eq_true_eq, not_and, not_lt] at h2
  by_cases h1 : bstart < b.end_
  · right; exact h2 h1
  · left; omega

theorem place_coffee_shape (wstart wd bd : Int) :
    ∀ (n : Nat) (bs : List BreakInterval) (g : Rng) (bs' : List BreakInterval) (g' : Rng),
      place_coffee wstart wd bd bs n g = some (bs', g') →
      bs' = bs ∨ ∃ nb, bs' = bs ++ [nb] := by
  intro n
  induction n with
  | zero =>
    intro bs g bs' g' h
    simp only [place_coffee, Option.some.injEq, Prod.mk.injEq] at h
    left; exact h.1.symm
  | succ m ih =>
    intro bs g bs' g' h
    simp only [place_coffee] at h
    cases hri : randint 0 (wd - bd * 60) g with
    | none => rw [hri] at h; simp at h
    | some v =>
      obtain ⟨off, g1⟩ := v
      rw [hri] at h
      dsimp only at h
      split at h
      · exact ih bs g1 bs' g' h
      · simp only [Option.some.injEq, Prod.mk.injEq] at h
        right
        exact ⟨_, h.1.symm⟩

theorem place_coffee_inv (wstart wd bd : Int) (hbd : 0 ≤ bd) :
    ∀ (n : Nat) (bs : List BreakInterval) (g : Rng) (bs' : List BreakInterval) (g' : Rng),
      place_coffee wstart wd bd bs n g = some (bs', g') →
      bs.Pairwise disjB →
      (∀ b ∈ bs, wstart ≤ b.start ∧ b.start ≤ b.end_ ∧ b.end_ ≤ wstart + wd) →
      bs'.Pairwise disjB ∧
        ∀ b ∈ bs', wstart ≤ b.start ∧ b.start ≤ b.end_ ∧ b.end_ ≤ wstart + wd := by
  intro n
  induction n with
  | zero =>
    intro bs g bs' g' h hpw hin
    simp only [place_coffee, Option.some.injEq, Prod.mk.injEq] at h
    rw [← h.1]
    exact ⟨hpw, hin⟩
  | succ m ih =>
    intro bs g bs' g' h hpw hin
    simp only [place_coffee] at h
    cases hri : randint 0 (wd - bd * 60) g with
    | none => rw [hri] at h; simp at h
    | some v =>
      obtain ⟨off, g1⟩ := v
      obtain ⟨hoff0, hoff1⟩ := randint_bounds hri
      rw [hri] at h
      dsimp only at h
      split at h
      · exact ih bs g1 bs' g' h hpw hin
      · rename_i hov
        rw [Bool.not_eq_true] at hov
        have hdisj := overlapsAny_eq_false hov
        simp only [Option.some.injEq, Prod.mk.injEq] at h
        rw [← h.1]
        constructor
        · rw [List.pairwise_append]
          refine ⟨hpw, by simp, ?_⟩
          intro a ha b hb
          rw [List.mem_singleton] at hb
          subst hb
          exact hdisj a ha
        · intro b hb
          rcases List.mem_append.mp hb with hb | hb
          · exact hin b hb
          · rw [List.mem_singleton] at hb
            subst hb
            exact ⟨by dsimp only; omega, by dsimp only; omega, by dsimp only; omega⟩

theorem coffee_loop_inv (p : UserProfile) (wstart wd : Int) :
    ∀ (n : Nat) (bs : List BreakInterval) (g : Rng) (bs' : List BreakInterval) (g' : Rng),
      coffee_loop p wstart wd n bs g = some (bs', g') →
      bs.Pairwise disjB →
      (∀ b ∈ bs, wstart ≤ b.start ∧ b.start ≤ b.end_ ∧ b.end_ ≤ wstart + wd) →
      bs'.Pairwise disjB ∧
        ∀ b ∈ bs', wstart ≤ b.start ∧ b.start ≤ b.end_ ∧ b.end_ ≤ wstart + wd := by
  intro n
  induction n with
  | zero =>
    intro bs g bs' g' h hpw hin
    simp only [coffee_loop, Option.some.injEq, Prod.mk.injEq] at h
    rw [← h.1]
    exact ⟨hpw, hin⟩
  | succ m ih =>
    intro bs g bs' g' h hpw hin
    simp only [coffee_loop] at h
    cases hri : randint (p.afk_behavior.break_duration_minutes.1 : Int)
        (p.afk_behavior.break_duration_minutes.2 : Int) g with
    | none => rw [hri] at h; simp at h
    | some v =>
      obtain ⟨bd, g1⟩ := v
      obtain ⟨hbd0, hbd1⟩ := randint_bounds hri
      rw [hri] at h
      dsimp only at h
      cases hpl : place_coffee wstart wd bd bs 10 g1 with
      | none => rw [hpl] at h; simp at h
      | some w =>
        obtain ⟨bs1, g2⟩ := w
        rw [hpl] at h
        dsimp only at h
        have hstep := place_coffee_inv wstart wd bd (by omega) 10 bs g1 bs1 g2 hpl hpw hin
        exact ih bs1 g2 bs' g' h hstep.1 hstep.2

theorem place_coffee_pw (wstart wd bd : Int) :
    ∀ (n : Nat) (bs : List BreakInterval) (g : Rng) (bs' : List BreakInterval) (g' : Rng),
      place_coffee wstart wd bd bs n g = some (bs', g') →
      bs.Pairwise disjB → bs'.Pairwise disjB := by
  intro n
  induction n with
  | zero =>
    intro bs g bs' g' h hpw
    simp only [place_coffee, Option.some.injEq, Prod.mk.injEq] at h
    rw [← h.1]
    exact hpw
  | succ m ih =>
    intro bs g bs' g' h hpw
    simp only [place_coffee] at h
    cases hri : randint 0 (wd - bd * 60) g with
    | none => rw [hri] at h; simp at h
    | some v =>
      obtain ⟨off, g1⟩ := v
      rw [hri] at h
      dsimp only at h
      split at h
      · exact ih bs g1 bs' g' h hpw
      · rename_i hov
        rw [Bool.not_eq_true] at hov
        have hdisj := overlapsAny_eq_false hov
        simp only [Option.some.injEq, Prod.mk.injEq] at h
        rw [← h.1]
        rw [List.pairwise_append]
        refine ⟨hpw, by simp, ?_⟩
        intro a ha b hb
        rw [List.mem_singleton] at hb
        subst hb
        exact hdisj a ha

theorem coffee_loop_pw (p : UserProfile) (wstart wd : Int) :
    ∀ (n : Nat) (bs : List BreakInterval) (g : Rng) (bs' : List BreakInterval) (g' : Rng),
      coffee_loop p wstart wd n bs g = some (bs', g') →
      bs.Pairwise disjB → bs'.Pairwise disjB := by
  intro n
  induction n with
  | zero =>
    intro bs g bs' g' h hpw
    simp only [coffee_loop, Option.some.injEq, Prod.mk.injEq] at h
    rw [← h.1]
    exact hpw
  | succ m ih =>
    intro bs g bs' g' h hpw
    simp only [coffee_loop] at h
    cases hri : randint (p.afk_behavior.break_duration_minutes.1 : Int)
        (p.afk_behavior.break_duration_minutes.2 : Int) g with
    | none => rw [hri] at h; simp at h
    | some v =>
      obtain ⟨bd, g1⟩ := v
      rw [hri] at h
      dsimp only at h
      cases hpl : place_coffee wstart wd bd bs 10 g1 with
      | none => rw [hpl] at h; simp at h
      | some w =>
        obtain ⟨bs1, g2⟩ := w
        rw [hpl] at h
        dsimp only at h
        have hstep := place_coffee_pw wstart wd bd 10 bs g1 bs1 g2 hpl hpw
        exact ih bs1 g2 bs' g' h hstep

instance : IsTotal BreakInterval (fun a b => a.start ≤ b.start) :=
  ⟨fun a b => le_total a.start b.start⟩

instance : IsTrans BreakInterval (fun a b => a.start ≤ b.start) :=
  ⟨fun _ _ _ h1 h2 => le_trans h1 h2⟩

/-- C5 (amended): whenever `generate_breaks` returns normally, its break
list is sorted by start time and pairwise non-overlapping -- with no side
condition.  Full containment of every break in the session additionally
requires a within-day session and that the largest drawable lunch
duration fit in the part of the session after the latest lunch placement
offset (`60 * lunch_hi ≤ d - d * 5 / 10`); without that proviso the
lunch break can overrun the session end (see the counterexample).
Independently, a coffee break whose placement finds no non-overlapping
slot within the 10 attempts is silently dropped: the placement loop
always returns normally when the drawn duration fits, adding either
nothing or exactly one break. -/
theorem claim_C5_amended (p : UserProfile) (ws : WorkSession) (g : Rng)
    (bs : List BreakInterval) (g' : Rng)
    (hgen : generate_breaks p ws g = some (bs, g')) :
    (List.Sorted (fun a b : BreakInterval => a.start ≤ b.start) bs ∧
      bs.Pairwise disjB) ∧
    (0 ≤ ws.end_ - ws.start → ws.end_ - ws.start < 86400 →
      60 * (p.afk_behavior.lunch_minutes.2 : Int) ≤
        (ws.end_ - ws.start) - (ws.end_ - ws.start) * 5 / 10 →
      ∀ b ∈ bs, ws.start ≤ b.start ∧ b.start ≤ b.end_ ∧ b.end_ ≤ ws.end_) ∧
    (∀ (wstart wd bd : Int) (bs0 : List BreakInterval) (g0 : Rng), 0 ≤ wd - bd * 60 →
      ∃ r, place_coffee wstart wd bd bs0 10 g0 = some r ∧
        (r.1 = bs0 ∨ ∃ nb, r.1 = bs0 ++ [nb])) := by
  refine ⟨?_, ?_, ?_⟩
  · -- sortedness and pairwise non-overlap, unconditionally
    unfold generate_breaks at hgen
    dsimp only at hgen
    suffices hsuff : ∀ (breaks0 : List BreakInterval) (g1 : Rng),
        breaks0.Pairwise disjB →
        (match randint (p.afk_behavior.coffee_breaks.1 : Int)
            (p.afk_behavior.coffee_breaks.2 : Int) g1 with
         | none => none
         | some (num_breaks, g2) =>
           match coffee_loop p ws.start ((ws.end_ - ws.start) % 86400)
               num_breaks.toNat breaks0 g2 with
           | none => none
           | some (breaks1, g3) =>
             some (breaks1.insertionSort (fun a b => a.start ≤ b.start), g3)) =
          some (bs, g') →
        List.Sorted (fun a b : BreakInterval => a.start ≤ b.start) bs ∧
          bs.Pairwise disjB by
      split at hgen
      · exact absurd hgen (by simp)
      · rename_i breaks0 g1 heq
        split at heq
        · -- lunch branch: breaks0 is a singleton
          cases hri : randint (p.afk_behavior.lunch_minutes.1 : Int)
              (p.afk_behavior.lunch_minutes.2 : Int) g with
          | none => rw [hri] at heq; simp at heq
          | some v1 =>
            obtain ⟨lunch_duration, g1x⟩ := v1
            rw [hri] at heq
            dsimp only at heq
            cases hri2 : randint ((ws.end_ - ws.start) % 86400 * 3 / 10)
                ((ws.end_ - ws.start) % 86400 * 5 / 10) g1x with
            | none => rw [hri2] at heq; simp at heq
            | some v2 =>
              obtain ⟨off, g2x⟩ := v2
              rw [hri2] at heq
              dsimp only at heq
              simp only [Option.some.injEq, Prod.mk.injEq] at heq
              obtain ⟨hb0, hg1⟩ := heq
              subst hg1
              refine hsuff breaks0 g2x ?_ hgen
              rw [← hb0]
              simp [disjB]
        · -- no lunch: breaks0 is empty
          simp only [Option.some.injEq, Prod.mk.injEq] at heq
          obtain ⟨hb0, hg1⟩ := heq
          subst hg1
          refine hsuff breaks0 g ?_ hgen
          rw [← hb0]; simp
    intro breaks0 g1 hpw hrun
    cases hri3 : randint (p.afk_behavior.coffee_breaks.1 : Int)
        (p.afk_behavior.coffee_breaks.2 : Int) g1 with
    | none => rw [hri3] at hrun; simp at hrun
    | some v3 =>
      obtain ⟨num_breaks, g2⟩ := v3
      rw [hri3] at hrun
      dsimp only at hrun
      cases hcl : coffee_loop p ws.start ((ws.end_ - ws.start) % 86400)
          num_breaks.toNat breaks0 g2 with
      | none => rw [hcl] at hrun; simp at hrun
      | some v4 =>
        obtain ⟨bs1, g4⟩ := v4
        rw [hcl] at hrun
        dsimp only at hrun
        simp only [Option.some.injEq, Prod.mk.injEq] at hrun
        obtain ⟨hbs, hg'⟩ := hrun
        have hinv := coffee_loop_pw p ws.start ((ws.end_ - ws.start) % 86400)
          num_breaks.toNat breaks0 g2 bs1 g4 hcl hpw
        subst hbs
        have hperm := List.perm_insertionSort
          (fun a b : BreakInterval => a.start ≤ b.start) bs1
        exact ⟨List.sorted_insertionSort _ bs1,
          (hperm.pairwise_iff (fun h => disjB_symm h)).mpr hinv⟩
  · -- containment, under the lunch-fit proviso
    intro h0 h86 hlf
    unfold generate_breaks at hgen
    rw [Int.emod_eq_of_lt h0 h86] at hgen
    dsimp only at hgen
    suffices hsuff : ∀ (breaks0 : List BreakInterval) (g1 : Rng),
        breaks0.Pairwise disjB →
        (∀ b ∈ breaks0, ws.start ≤ b.start ∧ b.start ≤ b.end_ ∧
          b.end_ ≤ ws.start + (ws.end_ - ws.start)) →
        (match randint (p.afk_behavior.coffee_breaks.1 : Int)
            (p.afk_behavior.coffee_breaks.2 : Int) g1 with
         | none => none
         | some (num_breaks, g2) =>
           match coffee_loop p ws.start (ws.end_ - ws.start) num_breaks.toNat breaks0 g2 with
           | none => none
           | some (breaks1, g3) =>
             some (breaks1.insertionSort (fun a b => a.start ≤ b.start), g3)) =
          some (bs, g') →
        ∀ b ∈ bs, ws.start ≤ b.start ∧ b.start ≤ b.end_ ∧ b.end_ ≤ ws.end_ by
      split at hgen
      · exact absurd hgen (by simp)
      · rename_i breaks0 g1 heq
        split at heq
        · -- lunch branch
          rename_i h4
          cases hri : randint (p.afk_behavior.lunch_minutes.1 : Int)
              (p.afk_behavior.lunch_minutes.2 : Int) g with
          | none => rw [hri] at heq; simp at heq
          | some v1 =>
            obtain ⟨lunch_duration, g1x⟩ := v1
            obtain ⟨hld0, hld1⟩ := randint_bounds hri
            rw [hri] at heq
            dsimp only at heq
            cases hri2 : randint ((ws.end_ - ws.start) * 3 / 10)
                ((ws.end_ - ws.start) * 5 / 10) g1x with
            | none => rw [hri2] at heq; simp at heq
            | some v2 =>
              obtain ⟨off, g2x⟩ := v2
              obtain ⟨hoff0, hoff1⟩ := randint_bounds hri2
              rw [hri2] at heq
              dsimp only at heq
              simp only [Option.some.injEq, Prod.mk.injEq] at heq
              obtain ⟨hb0, hg1⟩ := heq
              subst hg1
              refine hsuff breaks0 g2x ?_ ?_ hgen
              · rw [← hb0]
                simp [disjB]
              · rw [← hb0]
                intro b hb
                rw [List.mem_singleton] at hb
                subst hb
                have h60 : 60 * lunch_duration ≤
                    60 * (p.afk_behavior.lunch_minutes.2 : Int) := by omega
                refine ⟨by dsimp only; omega, by dsimp only; omega, by dsimp only; omega⟩
        · -- no lunch
          simp only [Option.some.injEq, Prod.mk.injEq] at heq
          obtain ⟨hb0, hg1⟩ := heq
          subst hg1
          refine hsuff breaks0 g ?_ ?_ hgen
          · rw [← hb0]; simp
          · rw [← hb0]; simp
    intro breaks0 g1 hpw hin hrun
    cases hri3 : randint (p.afk_behavior.coffee_breaks.1 : Int)
        (p.afk_behavior.coffee_breaks.2 : Int) g1 with
    | none => rw [hri3] at hrun; simp at hrun
    | some v3 =>
      obtain ⟨num_breaks, g2⟩ := v3
      rw [hri3] at hrun
      dsimp only at hrun
      cases hcl : coffee_loop p ws.start (ws.end_ - ws.start) num_breaks.toNat breaks0 g2 with
      | none => rw [hcl] at hrun; simp at hrun
      | some v4 =>
        obtain ⟨bs1, g4⟩ := v4
        rw [hcl] at hrun
        dsimp only at hrun
        simp only [Option.some.injEq, Prod.mk.injEq] at hrun
        obtain ⟨hbs, hg'⟩ := hrun
        have hinv := coffee_loop_inv p ws.start (ws.end_ - ws.start)
          num_breaks.toNat breaks0 g2 bs1 g4 hcl hpw hin
        subst hbs
        have hperm := List.perm_insertionSort
          (fun a b : BreakInterval => a.start ≤ b.start) bs1
        intro b hb
        have := hinv.2 b (hperm.mem_iff.mp hb)
        omega
  · intro wstart wd bd bs0 g0 hfit
    obtain ⟨⟨bs1, g1⟩, hr⟩ := place_coffee_returns wstart wd bd (by omega) 10 bs0 g0
    exact ⟨(bs1, g1), hr, place_coffee_shape wstart wd bd 10 bs0 g0 bs1 g1 hr⟩

/-- A profile whose lunch always fits: lunch 30 min, one 5-minute coffee
break, no variance. -/
def fittingProfile : UserProfile :=
  { username := "f"
    hostnames := ["h"]
    work_hours := ⟨⟨9, 0⟩, ⟨17, 0⟩, 0⟩
    weekend_activity := false
    weekend_schedule := ⟨none, none⟩
    afk_behavior := ⟨(30, 30), (1, 1), (5, 5)⟩
    apps := ⟨["Work"], [], []⟩
    productivity := ⟨(0, 0)⟩ }

/-- A profile whose lunch is longer (121 min) than half of a
4-hour-1-minute session, so the drawn lunch can overrun the session
end. -/
def overhangProfile : UserProfile :=
  { username := "o"
    hostnames := ["h"]
    work_hours := ⟨⟨9, 0⟩, ⟨13, 1⟩, 0⟩
    weekend_activity := false
    weekend_schedule := ⟨none, none⟩
    afk_behavior := ⟨(121, 121), (0, 0), (5, 5)⟩
    apps := ⟨["Work"], [], []⟩
    productivity := ⟨(0, 0)⟩ }

/-- A draw stream that picks the latest lunch offset (draw 2892 at index
1) and zero everywhere else. -/
def rngC5 : Rng := ⟨fun n => if n = 1 then 2892 else 0, 0⟩

/-- Counterexample to C5 as stated: for a 14460-second session the
scheduler places a 7260-second lunch at offset 7230, ending at 14490 --
past the session end.  The generated break is not contained in its
session. -/
theorem claim_C5_counterexample :
    (generate_breaks overhangProfile ⟨0, 14460, false⟩ rngC5).map Prod.fst =
      some [⟨7230, 14490, "lunch"⟩] ∧
    ¬ ((14490 : Int) ≤ (⟨0, 14460, false⟩ : WorkSession).end_) :=
  ⟨rfl, by decide⟩

/-- Witness for C5 (amended) at a concrete profile, session and
stream. -/
theorem claim_C5_witness :
    (List.Sorted (fun a b : BreakInterval => a.start ≤ b.start)
        [⟨0, 300, "coffee"⟩, ⟨6000, 7800, "lunch"⟩] ∧
      List.Pairwise disjB [⟨0, 300, "coffee"⟩, ⟨6000, 7800, "lunch"⟩]) ∧
    (∀ b ∈ [(⟨0, 300, "coffee"⟩ : BreakInterval), ⟨6000, 7800, "lunch"⟩],
      (⟨0, 20000, false⟩ : WorkSession).start ≤ b.start ∧ b.start ≤ b.end_ ∧
        b.end_ ≤ (⟨0, 20000, false⟩ : WorkSession).end_) := by
  have h := claim_C5_amended fittingProfile ⟨0, 20000, false⟩ rng0
    [⟨0, 300, "coffee"⟩, ⟨6000, 7800, "lunch"⟩] ⟨rng0.draws, 5⟩ rfl
  exact ⟨h.1, h.2.1 (by decide) (by decide) (by decide)⟩

theorem sum_durations_cons (x : AfkEvent) (l : List AfkEvent) :
    sum_durations (x :: l) = x.duration + sum_durations l := by
  simp [sum_durations]

theorem statuses_of_cons_sum (seg : BreakInterval) (rest : List BreakInterval)
    (h : 0 ≤ seg.end_ - seg.start) :
    sum_durations (statuses_of (seg :: rest)) =
      (seg.end_ - seg.start) + sum_durations (statuses_of rest) := by
  by_cases hw : seg.type = "work"
  · by_cases hd : 0 < seg.end_ - seg.start
    · simp only [statuses_of, if_pos hw, if_pos hd, sum_durations_cons]
    · have h0 : seg.end_ - seg.start = 0 := by omega
      simp only [statuses_of, if_pos hw, if_neg hd, h0, zero_add]
      norm_num
  · by_cases hl : seg.type = "lunch"
    · simp only [statuses_of, if_neg hw, if_pos hl, sum_durations_cons]
    · by_cases hc : seg.end_ - seg.start < 600
      · simp only [statuses_of, if_neg hw, if_neg hl, if_pos hc, sum_durations_cons]
      · simp only [statuses_of, if_neg hw, if_neg hl, if_neg hc, sum_durations_cons]

theorem segs_loop_sum (end_time : Int) :
    ∀ (bs : List BreakInterval) (last_end : Int),
      last_end ≤ end_time →
      (∀ b ∈ bs, last_end ≤ b.start ∧ b.start ≤ b.end_ ∧ b.end_ ≤ end_time) →
      bs.Pairwise (fun a b => a.end_ ≤ b.start) →
      sum_durations (statuses_of (segs_loop last_end end_time bs)) =
        end_time - last_end := by
  intro bs
  induction bs with
  | nil =>
    intro last_end hle _ _
    by_cases hlt : last_end < end_time
    · simp only [segs_loop, if_pos hlt]
      rw [statuses_of_cons_sum _ _ (by dsimp only; omega)]
      simp [statuses_of, sum_durations]
    · have : last_end = end_time := by omega
      simp [segs_loop, hlt, statuses_of, sum_durations, this]
  | cons b rest ih =>
    intro last_end hle hin hpw
    obtain ⟨hb1, hb2, hb3⟩ := hin b (List.mem_cons_self b rest)
    have hrest : ∀ b' ∈ rest, b.end_ ≤ b'.start ∧ b'.start ≤ b'.end_ ∧
        b'.end_ ≤ end_time := by
      intro b' hb'
      have h1 := (List.pairwise_cons.mp hpw).1 b' hb'
      have h2 := hin b' (List.mem_cons_of_mem b hb')
      exact ⟨h1, h2.2.1, h2.2.2⟩
    have hihsum := ih b.end_ hb3 (fun b' hb' => ⟨(hrest b' hb').1, (hrest b' hb').2⟩)
      (List.pairwise_cons.mp hpw).2
    by_cases hgap : last_end < b.start
    · simp only [segs_loop, if_pos hgap, List.cons_append, List.nil_append]
      rw [statuses_of_cons_sum _ _ (by dsimp only; omega)]
      rw [statuses_of_cons_sum _ _ (by dsimp only; omega)]
      dsimp only
      rw [hihsum]
      ring
    · have heq : last_end = b.start := by omega
      simp only [segs_loop, if_neg hgap, List.nil_append]
      rw [statuses_of_cons_sum _ _ (by dsimp only; omega)]
      dsimp only
      rw [hihsum]
      omega

/-- C3 (amended): the sum of the PresenceSegment durations equals
(session end - session start) exactly, provided each break has
nonnegative length and is contained in the session and the sorted breaks
are chained (each starts no earlier than the previous one ends -- which
holds for the scheduler's sorted non-overlapping output whenever the
lunch is contained).  When a generated lunch overruns the session end
the sum instead exceeds the session length (see the counterexample). -/
theorem claim_C3_amended (ws : WorkSession) (breaks : List BreakInterval)
    (acts : List Activity)
    (hse : ws.start ≤ ws.end_)
    (hchain : breaks.Pairwise (fun a b => a.end_ ≤ b.start))
    (hin : ∀ b ∈ breaks, ws.start ≤ b.start ∧ b.start ≤ b.end_ ∧ b.end_ ≤ ws.end_) :
    sum_durations (generate_afk_statuses ws breaks acts) = ws.end_ - ws.start := by
  unfold generate_afk_statuses
  exact segs_loop_sum ws.end_ breaks ws.start hse hin hchain

/-- Counterexample to C3 as stated: for the overhang profile the
generated (sorted) break list makes the presence segments sum to 14490
seconds on a 14460-second session. -/
theorem claim_C3_counterexample :
    (generate_breaks overhangProfile ⟨0, 14460, false⟩ rngC5).map Prod.fst =
      some [⟨7230, 14490, "lunch"⟩] ∧
    sum_durations (generate_afk_statuses ⟨0, 14460, false⟩
      [⟨7230, 14490, "lunch"⟩] []) = 14490 ∧
    (⟨0, 14460, false⟩ : WorkSession).end_ - (⟨0, 14460, false⟩ : WorkSession).start =
      14460 :=
  ⟨rfl, by decide, by decide⟩

/-- Witness for C3 (amended) at a concrete session and break list. -/
theorem claim_C3_witness :
    ((⟨0, 1000, false⟩ : WorkSession).start ≤ (⟨0, 1000, false⟩ : WorkSession).end_) ∧
    sum_durations (generate_afk_statuses ⟨0, 1000, false⟩
      [⟨100, 200, "lunch"⟩, ⟨300, 400, "coffee"⟩] []) = 1000 - 0 :=
  ⟨by decide,
   claim_C3_amended ⟨0, 1000, false⟩ [⟨100, 200, "lunch"⟩, ⟨300, 400, "coffee"⟩] []
     (by decide) (by decide) (by decide)⟩

theorem randint_some_bounds {lo hi : Int} (h : lo ≤ hi) (g : Rng) :
    ∃ v, randint lo hi g = some (v, ⟨g.draws, g.idx + 1⟩) ∧ lo ≤ v ∧ v ≤ hi :=
  ⟨_, randint_some h g, (randint_bounds (randint_some h g)).1,
    (randint_bounds (randint_some h g)).2⟩

theorem draw_duration_some (p : UserProfile) (g : Rng) :
    ∃ d, draw_duration p g = some (d, ⟨g.draws, g.idx + 1⟩) ∧ 30 ≤ d ∧ d ≤ 900 := by
  unfold draw_duration
  split_ifs with h1 h2
  · obtain ⟨v, hv, hb1, hb2⟩ := randint_some_bounds (by norm_num : (30 : Int) ≤ 180) g
    exact ⟨v, hv, by omega, by omega⟩
  · obtain ⟨v, hv, hb1, hb2⟩ := randint_some_bounds (by norm_num : (60 : Int) ≤ 300) g
    exact ⟨v, hv, by omega, by omega⟩
  · obtain ⟨v, hv, hb1, hb2⟩ := randint_some_bounds (by norm_num : (180 : Int) ≤ 900) g
    exact ⟨v, hv, by omega, by omega⟩

theorem maybe_switch_some (p : UserProfile) (all_apps : List String)
    (app_weights : List Nat) (app : String) (g : Rng)
    (hlen : all_apps.length = app_weights.length) (hw : 0 < app_weights.sum) :
    ∃ a g', maybe_switch p all_apps app_weights app g = some (a, g') := by
  unfold maybe_switch
  dsimp only
  split
  · unfold choices
    rw [if_pos ⟨hlen, hw⟩]
    exact ⟨_, _, rfl⟩
  · exact ⟨_, _, rfl⟩

theorem find?_min_start {breaks : List BreakInterval} {c : Int} {nb : BreakInterval}
    (hsorted : breaks.Sorted (fun a b => a.start ≤ b.start))
    (hf : breaks.find? (fun b => decide (c < b.start)) = some nb) :
    ∀ b ∈ breaks, c < b.start → nb.start ≤ b.start := by
  induction breaks with
  | nil => simp at hf
  | cons b0 rest ih =>
    obtain ⟨hrel, hsorted'⟩ := List.sorted_cons.mp hsorted
    by_cases h0 : c < b0.start
    · have hdec : decide (c < b0.start) = true := decide_eq_true h0
      rw [List.find?_cons, hdec] at hf
      simp only [Option.some.injEq] at hf
      subst hf
      intro b hb _
      rcases List.mem_cons.mp hb with rfl | hb
      · exact le_refl _
      · exact hrel b hb
    · have hdec : decide (c < b0.start) = false := decide_eq_false h0
      rw [List.find?_cons, hdec] at hf
      intro b hb hcb
      rcases List.mem_cons.mp hb with rfl | hb
      · exact absurd hcb h0
      · exact ih hsorted' hf b hb hcb

theorem remaining_time_eq_none {breaks : List BreakInterval} {end_time c : Int}
    (hf : breaks.find? (fun b => decide (c < b.start)) = none) :
    remaining_time breaks end_time c = (end_time - c) % 86400 := by
  simp only [remaining_time, hf]

theorem remaining_time_eq_some {breaks : List BreakInterval} {end_time c : Int}
    {nb : BreakInterval}
    (hf : breaks.find? (fun b => decide (c < b.start)) = some nb) :
    remaining_time breaks end_time c =
      min ((end_time - c) % 86400) ((nb.start - c) % 86400) := by
  simp only [remaining_time, hf]

theorem remaining_time_spec (breaks : List BreakInterval) (end_time c : Int)
    (hsorted : breaks.Sorted (fun a b => a.start ≤ b.start))
    (hbs : ∀ b ∈ breaks, b.start ≤ end_time)
    (hc : c < end_time) (h86 : end_time - c < 86400) :
    1 ≤ remaining_time breaks end_time c ∧
    remaining_time breaks end_time c ≤ end_time - c ∧
    ∀ b ∈ breaks, c < b.start → remaining_time breaks end_time c ≤ b.start - c := by
  have hr0 : (end_time - c) % 86400 = end_time - c := Int.emod_eq_of_lt (by omega) h86
  cases hf : breaks.find? (fun b => decide (c < b.start)) with
  | none =>
    rw [remaining_time_eq_none hf, hr0]
    refine ⟨by omega, by omega, ?_⟩
    intro b hb hcb
    have h2 := List.find?_eq_none.mp hf b hb
    simp only [decide_eq_true_eq] at h2
    exact absurd hcb h2
  | some nb =>
    have hpred := List.find?_some hf
    simp only [decide_eq_true_eq] at hpred
    have hmem := List.mem_of_find?_eq_some hf
    have hend : nb.start ≤ end_time := hbs nb hmem
    have hmod : (nb.start - c) % 86400 = nb.start - c :=
      Int.emod_eq_of_lt (by omega) (by omega)
    rw [remaining_time_eq_some hf, hr0, hmod]
    refine ⟨by omega, by omega, ?_⟩
    intro b hb hcb
    have hmin := find?_min_start hsorted hf b hb hcb
    omega

theorem gen_loop_spec (p : UserProfile) (breaks : List BreakInterval)
    (all_apps : List String) (app_weights : List Nat) (end_time : Int)
    (hlen : all_apps.length = app_weights.length) (hw : 0 < app_weights.sum)
    (hsorted : breaks.Sorted (fun a b => a.start ≤ b.start))
    (hbs : ∀ b ∈ breaks, b.start ≤ end_time) :
    ∀ (fuel : Nat) (c : Int) (app : String) (g : Rng),
      end_time - c < 86400 → (end_time - c).toNat < fuel →
      ∃ acts g',
        gen_loop p breaks all_apps app_weights end_time fuel c app g = some (acts, g') ∧
        (∀ t, c ≤ t → t < end_time → coveredActs t acts ∨ coveredBreaks t breaks) ∧
        (∀ a ∈ acts, c ≤ a.timestamp ∧ a.timestamp + a.duration ≤ end_time ∧
          1 ≤ a.duration) ∧
        (∀ a ∈ acts, ∀ b ∈ breaks,
          a.timestamp + a.duration ≤ b.start ∨ b.end_ ≤ a.timestamp) ∧
        acts.Pairwise (fun a a' => a.timestamp + a.duration ≤ a'.timestamp) := by
  intro fuel
  induction fuel with
  | zero =>
    intro c app g h86 hfuel
    exact absurd hfuel (by omega)
  | succ n ih =>
    intro c app g h86 hfuel
    by_cases hc : c < end_time
    case neg =>
      refine ⟨[], g, ?_, ?_, by simp, by simp, by simp⟩
      · simp only [gen_loop, if_neg hc]
      · intro t ht1 ht2
        omega
    case pos =>
      cases hf : breaks.find? (fun b =>
          decide (b.start ≤ c) && decide (c < b.end_)) with
      | some brk =>
        have hmem := List.mem_of_find?_eq_some hf
        have hpred := List.find?_some hf
        simp only [Bool.and_eq_true, decide_eq_true_eq] at hpred
        obtain ⟨hb1, hb2⟩ := hpred
        obtain ⟨acts, g', hrun, hcov, hacts, hdisj, hpw⟩ :=
          ih brk.end_ app g (by omega) (by omega)
        refine ⟨acts, g', ?_, ?_, ?_, hdisj, hpw⟩
        · simp only [gen_loop, if_pos hc, hf]
          exact hrun
        · intro t ht1 ht2
          by_cases htb : t < brk.end_
          · exact Or.inr ⟨brk, hmem, by omega, htb⟩
          · exact hcov t (by omega) ht2
        · intro a ha
          have h3 := hacts a ha
          exact ⟨by omega, h3.2.1, h3.2.2⟩
      | none =>
        have hnb : ∀ b ∈ breaks, ¬(b.start ≤ c ∧ c < b.end_) := by
          intro b hb
          have h2 := List.find?_eq_none.mp hf b hb
          simpa using h2
        obtain ⟨d0, hd0run, hd030, hd0900⟩ := draw_duration_some p g
        obtain ⟨hr1, hr2, hr3⟩ := remaining_time_spec breaks end_time c hsorted hbs hc h86
        have hdpos : 0 < min d0 (remaining_time breaks end_time c) := by omega
        have hdle : min d0 (remaining_time breaks end_time c) ≤ end_time - c := by omega
        obtain ⟨napp, g3, hswitch⟩ := maybe_switch_some p all_apps app_weights app
          (get_window_title app (⟨g.draws, g.idx + 1⟩ : Rng)).2 hlen hw
        obtain ⟨acts', g', hrun', hcov', hacts', hdisj', hpw'⟩ :=
          ih (c + min d0 (remaining_time breaks end_time c)) napp g3 (by omega) (by omega)
        refine ⟨⟨app, (get_window_title app (⟨g.draws, g.idx + 1⟩ : Rng)).1,
            min d0 (remaining_time breaks end_time c), c⟩ :: acts', g', ?_, ?_, ?_, ?_, ?_⟩
        · simp only [gen_loop, if_pos hc, hf]
          rw [hd0run]
          dsimp only
          rw [if_pos hdpos, hswitch]
          dsimp only
          rw [hrun']
        · intro t ht1 ht2
          by_cases htd : t < c + min d0 (remaining_time breaks end_time c)
          · exact Or.inl ⟨_, List.mem_cons_self _ _, by dsimp only; omega,
              by dsimp only; omega⟩
          · rcases hcov' t (by omega) ht2 with hca | hcb
            · obtain ⟨a, ha, hta⟩ := hca
              exact Or.inl ⟨a, List.mem_cons_of_mem _ ha, hta⟩
            · exact Or.inr hcb
        · intro a ha
          rcases List.mem_cons.mp ha with rfl | ha
          · exact ⟨by dsimp only; omega, by dsimp only; omega, by dsimp only; omega⟩
          · have h3 := hacts' a ha
            exact ⟨by omega, h3.2.1, h3.2.2⟩
        · intro a ha b hb
          rcases List.mem_cons.mp ha with rfl | ha
          · by_cases hcb : c < b.start
            · have := hr3 b hb hcb
              left
              dsimp only
              omega
            · have := hnb b hb
              right
              dsimp only
              omega
          · exact hdisj' a ha b hb
        · rw [List.pairwise_cons]
          constructor
          · intro a ha
            have := (hacts' a ha).1
            dsimp only
            omega
          · exact hpw'

/-- C2 (amended): for a within-day session and a break list that is
sorted, and whose members are contained in the session with nonnegative
length (the scheduler guarantees all of this whenever the lunch fits,
claim C5), and a profile with at least one app, the generated
WindowActivityEvents together with the breaks cover the session interval
`[start, end)` exactly: every instant of the session is inside an event
or a break, every event lies inside the session, events are pairwise
non-overlapping and chronological, and no event overlaps or spans any
break.  When a generated lunch overruns the session end the union
strictly exceeds the session interval (see the counterexample). -/
theorem claim_C2_amended (p : UserProfile) (ws : WorkSession)
    (breaks : List BreakInterval) (g : Rng)
    (hpos : 0 < ws.end_ - ws.start) (h86 : ws.end_ - ws.start < 86400)
    (hsorted : breaks.Sorted (fun a b : BreakInterval => a.start ≤ b.start))
    (hin : ∀ b ∈ breaks, ws.start ≤ b.start ∧ b.start ≤ b.end_ ∧ b.end_ ≤ ws.end_)
    (happs : ¬ (p.apps.productive ++ p.apps.neutral ++ p.apps.unproductive = [])) :
    ∃ acts g',
      generate_window_activities p ws breaks g = some (acts, g') ∧
      (∀ t, (ws.start ≤ t ∧ t < ws.end_) ↔
        (coveredActs t acts ∨ coveredBreaks t breaks)) ∧
      (∀ a ∈ acts, ∀ b ∈ breaks,
        a.timestamp + a.duration ≤ b.start ∨ b.end_ ≤ a.timestamp) ∧
      acts.Pairwise (fun a a' => a.timestamp + a.duration ≤ a'.timestamp) := by
  have hlen' : (p.apps.productive ++ p.apps.neutral ++ p.apps.unproductive).length =
      (List.replicate p.apps.productive.length 3 ++
        List.replicate p.apps.neutral.length 2 ++
        List.replicate p.apps.unproductive.length 1).length := by
    simp
  have hwsum : 0 < (List.replicate p.apps.productive.length 3 ++
      List.replicate p.apps.neutral.length 2 ++
      List.replicate p.apps.unproductive.length 1).sum := by
    have hne : 0 < (p.apps.productive ++ p.apps.neutral ++ p.apps.unproductive).length :=
      List.length_pos.mpr happs
    simp only [List.length_append] at hne
    simp only [List.sum_append, List.sum_replicate, smul_eq_mul]
    omega
  have hbs : ∀ b ∈ breaks, b.start ≤ ws.end_ := by
    intro b hb
    have := hin b hb
    omega
  obtain ⟨acts, g', hrun, hcov, hacts, hdisj, hpw⟩ :=
    gen_loop_spec p breaks
      (p.apps.productive ++ p.apps.neutral ++ p.apps.unproductive)
      (List.replicate p.apps.productive.length 3 ++
        List.replicate p.apps.neutral.length 2 ++
        List.replicate p.apps.unproductive.length 1)
      ws.end_ hlen' hwsum hsorted hbs
      ((ws.end_ - ws.start).toNat + 1) ws.start
      (weightedChoice
        (p.apps.productive ++ p.apps.neutral ++ p.apps.unproductive)
        (List.replicate p.apps.productive.length 3 ++
          List.replicate p.apps.neutral.length 2 ++
          List.replicate p.apps.unproductive.length 1)
        (g.draws g.idx % (List.replicate p.apps.productive.length 3 ++
          List.replicate p.apps.neutral.length 2 ++
          List.replicate p.apps.unproductive.length 1).sum))
      (⟨g.draws, g.idx + 1⟩ : Rng) (by omega) (by omega)
  refine ⟨acts, g', ?_, ?_, hdisj, hpw⟩
  · unfold generate_window_activities
    dsimp only
    rw [if_neg happs]
    unfold choices
    rw [if_pos ⟨hlen', hwsum⟩]
    dsimp only
    exact hrun
  · intro t
    constructor
    · intro ⟨ht1, ht2⟩
      exact hcov t ht1 ht2
    · intro h
      rcases h with ⟨a, ha, hta1, hta2⟩ | ⟨b, hb, htb1, htb2⟩
      · have := hacts a ha
        omega
      · have := hin b hb
        omega

/-- Counterexample to C2 as stated: the generated 121-minute lunch of
the overhang profile covers the instant 14460, which is not inside the
session `[0, 14460)`; the activity generation succeeds, so the union of
the generated events and breaks strictly exceeds the session interval
and equality fails. -/
theorem claim_C2_counterexample :
    (generate_breaks overhangProfile ⟨0, 14460, false⟩ rngC5).map Prod.fst =
      some [⟨7230, 14490, "lunch"⟩] ∧
    (generate_window_activities overhangProfile ⟨0, 14460, false⟩
      [⟨7230, 14490, "lunch"⟩] rng0).isSome = true ∧
    coveredBreaks 14460 [⟨7230, 14490, "lunch"⟩] ∧
    ¬ ((14460 : Int) < (⟨0, 14460, false⟩ : WorkSession).end_) :=
  ⟨rfl, by with_unfolding_all decide, by unfold coveredBreaks; decide, by decide⟩

/-- Witness for C2 (amended) at a concrete profile, session, break list
and stream. -/
theorem claim_C2_witness :
    ((0 : Int) < 100 - 0) ∧
    (∃ acts g',
      generate_window_activities fittingProfile ⟨0, 100, false⟩
        [⟨40, 50, "coffee"⟩] rng0 = some (acts, g') ∧
      (∀ t : Int, ((0 : Int) ≤ t ∧ t < 100) ↔
        (coveredActs t acts ∨ coveredBreaks t [⟨40, 50, "coffee"⟩])) ∧
      (∀ a ∈ acts, ∀ b ∈ [(⟨40, 50, "coffee"⟩ : BreakInterval)],
        a.timestamp + a.duration ≤ b.start ∨ b.end_ ≤ a.timestamp) ∧
      acts.Pairwise (fun a a' => a.timestamp + a.duration ≤ a'.timestamp)) :=
  ⟨by decide,
   claim_C2_amended fittingProfile ⟨0, 100, false⟩ [⟨40, 50, "coffee"⟩] rng0
     (by decide) (by decide) (by decide) (by decide) (by decide)⟩

/-- Sum of the `duration` fields of an activity list. -/
def sum_act_durations (acts : List Activity) : Int :=
  (acts.map (fun a => a.duration)).sum

theorem sum_act_durations_cons (a : Activity) (l : List Activity) :
    sum_act_durations (a :: l) = a.duration + sum_act_durations l := by
  simp [sum_act_durations]

theorem gen_loop_sum_single (p : UserProfile) (all_apps : List String)
    (app_weights : List Nat) (hlen : all_apps.length = app_weights.length)
    (hw : 0 < app_weights.sum) (s e ls le : Int)
    (hsl : s ≤ ls) (hlt : ls < le) (hle : le ≤ e) (h86 : e - s < 86400) :
    ∀ (fuel : Nat) (c : Int) (app : String) (g : Rng),
      ((s ≤ c ∧ c ≤ ls) ∨ (le ≤ c ∧ c ≤ e)) → (e - c).toNat < fuel →
      ∃ acts g',
        gen_loop p [⟨ls, le, "lunch"⟩] all_apps app_weights e fuel c app g =
          some (acts, g') ∧
        sum_act_durations acts = (if c ≤ ls then (ls - c) + (e - le) else e - c) := by
  intro fuel
  induction fuel with
  | zero =>
    intro c app g hreg hfuel
    have : 0 ≤ e - c := by rcases hreg with ⟨h1, h2⟩ | ⟨h1, h2⟩ <;> omega
    exact absurd hfuel (by omega)
  | succ n ih =>
    intro c app g hreg hfuel
    by_cases hc : c < e
    case neg =>
      have hc2 : c = e := by rcases hreg with ⟨h1, h2⟩ | ⟨h1, h2⟩ <;> omega
      refine ⟨[], g, ?_, ?_⟩
      · simp only [gen_loop, if_neg hc]
      · rw [if_neg (by omega)]
        simp [sum_act_durations]
        omega
    case pos =>
      by_cases hcls : c = ls
      · -- at the lunch start: jump over the break
        have hfind : ([(⟨ls, le, "lunch"⟩ : BreakInterval)]).find? (fun b =>
            decide (b.start ≤ c) && decide (c < b.end_)) =
            some ⟨ls, le, "lunch"⟩ := by
          rw [List.find?_cons]
          have hb : (decide ((⟨ls, le, "lunch"⟩ : BreakInterval).start ≤ c) &&
              decide (c < (⟨ls, le, "lunch"⟩ : BreakInterval).end_)) = true := by
            simp only [Bool.and_eq_true, decide_eq_true_eq]
            refine ⟨by omega, by omega⟩
          rw [hb]
        obtain ⟨acts, g', hrun, hsum⟩ := ih le app g (Or.inr ⟨le_refl _, hle⟩) (by omega)
        refine ⟨acts, g', ?_, ?_⟩
        · simp only [gen_loop, if_pos hc, hfind]
          exact hrun
        · rw [if_pos (by omega : c ≤ ls)]
          rw [hsum, if_neg (by omega)]
          omega
      · -- not at the lunch start: emit one event
        have hreg' : (s ≤ c ∧ c < ls) ∨ (le ≤ c ∧ c < e) := by
          rcases hreg with ⟨h1, h2⟩ | ⟨h1, h2⟩
          · exact Or.inl ⟨h1, by omega⟩
          · exact Or.inr ⟨h1, by omega⟩
        have hfind : ([(⟨ls, le, "lunch"⟩ : BreakInterval)]).find? (fun b =>
            decide (b.start ≤ c) && decide (c < b.end_)) = none := by
          rw [List.find?_cons]
          have hb : (decide ((⟨ls, le, "lunch"⟩ : BreakInterval).start ≤ c) &&
              decide (c < (⟨ls, le, "lunch"⟩ : BreakInterval).end_)) = false := by
            simp only [Bool.and_eq_false_iff, decide_eq_false_iff_not, not_le, not_lt]
            rcases hreg' with ⟨h1, h2⟩ | ⟨h1, h2⟩
            · left; exact h2
            · right; omega
          rw [hb]
          rfl
        obtain ⟨d0, hd0run, hd030, hd0900⟩ := draw_duration_some p g
        have hrem : remaining_time [⟨ls, le, "lunch"⟩] e c =
            (if c < ls then ls - c else e - c) := by
          rcases hreg' with ⟨h1, h2⟩ | ⟨h1, h2⟩
          · have hf2 : ([(⟨ls, le, "lunch"⟩ : BreakInterval)]).find? (fun b =>
                decide (c < b.start)) = some ⟨ls, le, "lunch"⟩ := by
              rw [List.find?_cons]
              have hb : decide (c < (⟨ls, le, "lunch"⟩ : BreakInterval).start) = true :=
                decide_eq_true h2
              rw [hb]
            rw [remaining_time_eq_some hf2, if_pos h2]
            dsimp only
            have hm1 : (e - c) % 86400 = e - c := Int.emod_eq_of_lt (by omega) (by omega)
            have hm2 : (ls - c) % 86400 = ls - c := Int.emod_eq_of_lt (by omega) (by omega)
            rw [hm1, hm2]
            omega
          · have hf2 : ([(⟨ls, le, "lunch"⟩ : BreakInterval)]).find? (fun b =>
                decide (c < b.start)) = none := by
              rw [List.find?_cons]
              have hb : decide (c < (⟨ls, le, "lunch"⟩ : BreakInterval).start) = false :=
                decide_eq_false (by dsimp only; omega)
              rw [hb]
              rfl
            rw [remaining_time_eq_none hf2, if_neg (by omega)]
            exact Int.emod_eq_of_lt (by omega) (by omega)
        have hdpos : 0 < min d0 (remaining_time [⟨ls, le, "lunch"⟩] e c) := by
          rw [hrem]
          rcases hreg' with ⟨h1, h2⟩ | ⟨h1, h2⟩
          · rw [if_pos h2]; omega
          · rw [if_neg (by omega)]; omega
        obtain ⟨napp, g3, hswitch⟩ := maybe_switch_some p all_apps app_weights app
          (get_window_title app (⟨g.draws, g.idx + 1⟩ : Rng)).2 hlen hw
        have hnext_reg : (s ≤ c + min d0 (remaining_time [⟨ls, le, "lunch"⟩] e c) ∧
            c + min d0 (remaining_time [⟨ls, le, "lunch"⟩] e c) ≤ ls) ∨
            (le ≤ c + min d0 (remaining_time [⟨ls, le, "lunch"⟩] e c) ∧
              c + min d0 (remaining_time [⟨ls, le, "lunch"⟩] e c) ≤ e) := by
          rw [hrem]
          rcases hreg' with ⟨h1, h2⟩ | ⟨h1, h2⟩
          · rw [if_pos h2]; left; omega
          · rw [if_neg (by omega)]; right; omega
        obtain ⟨acts', g', hrun', hsum'⟩ :=
          ih (c + min d0 (remaining_time [⟨ls, le, "lunch"⟩] e c)) napp g3 hnext_reg
            (by
              have := hdpos
              rw [hrem] at this ⊢
              rcases hreg' with ⟨h1, h2⟩ | ⟨h1, h2⟩
              · rw [if_pos h2] at this ⊢; omega
              · rw [if_neg (by omega)] at this ⊢; omega)
        refine ⟨⟨app, (get_window_title app (⟨g.draws, g.idx + 1⟩ : Rng)).1,
            min d0 (remaining_time [⟨ls, le, "lunch"⟩] e c), c⟩ :: acts', g', ?_, ?_⟩
        · simp only [gen_loop, if_pos hc, hfind]
          rw [hd0run]
          dsimp only
          rw [if_pos hdpos, hswitch]
          dsimp only
          rw [hrun']
        · rw [sum_act_durations_cons]
          dsimp only
          rw [hsum']
          rw [hrem] at *
          rcases hreg' with ⟨h1, h2⟩ | ⟨h1, h2⟩
          · rw [if_pos h2] at *
            have hd_le : min d0 (ls - c) ≤ ls - c := min_le_right _ _
            by_cases hnext_ls : c + min d0 (ls - c) ≤ ls
            · rw [if_pos hnext_ls, if_pos (by omega)]
              omega
            · omega
          · rw [if_neg (by omega)] at *
            have hd_le : min d0 (e - c) ≤ e - c := min_le_right _ _
            rw [if_neg (by omega), if_neg (by omega)]
            omega

/-- The scenario profile of claim C1: work hours 09:00-17:00, variance
0, no weekend activity, lunch range [30, 30] minutes, zero coffee
breaks, single app `"Chrome"`. -/
def scenarioProfile : UserProfile :=
  { username := "s"
    hostnames := ["h"]
    work_hours := ⟨⟨9, 0⟩, ⟨17, 0⟩, 0⟩
    weekend_activity := false
    weekend_schedule := ⟨none, none⟩
    afk_behavior := ⟨(30, 30), (0, 0), (5, 10)⟩
    apps := ⟨["Chrome"], [], []⟩
    productivity := ⟨(40, 40)⟩ }

theorem scenario_session (g : Rng) :
    generate_work_session scenarioProfile 4 g =
      (some ⟨378000, 406800, false⟩, ⟨g.draws, g.idx + 1 + 1⟩) := by
  have h := generate_work_session_weekday scenarioProfile 4 g (by decide)
  norm_num [scenarioProfile, day_start, hm_seconds, Int.emod_one] at h
  exact h

theorem scenario_breaks (g : Rng) :
    generate_breaks scenarioProfile ⟨378000, 406800, false⟩ g =
      some ([⟨378000 + (8640 + (g.draws (g.idx + 1) : Int) % 5761),
             378000 + (8640 + (g.draws (g.idx + 1) : Int) % 5761) + 1800, "lunch"⟩],
        ⟨g.draws, g.idx + 1 + 1 + 1⟩) := by
  unfold generate_breaks
  simp only [scenarioProfile]
  norm_num
  rw [randint_some (by norm_num : (30 : Int) ≤ 30) g]
  norm_num [Int.emod_one]
  rw [randint_some (by norm_num : (8640 : Int) ≤ 14400) (⟨g.draws, g.idx + 1⟩ : Rng)]
  norm_num
  rw [randint_some (by norm_num : (0 : Int) ≤ 0) (⟨g.draws, g.idx + 1 + 1⟩ : Rng)]
  norm_num [Int.emod_one, coffee_loop, List.insertionSort, List.orderedInsert]

theorem scenario_activities_unfold (B : List BreakInterval) (g : Rng) :
    generate_window_activities scenarioProfile ⟨378000, 406800, false⟩ B g =
      gen_loop scenarioProfile B ["Chrome"] [3] 406800 28801 378000
        (weightedChoice ["Chrome"] [3] (g.draws g.idx % 3)) ⟨g.draws, g.idx + 1⟩ := by
  unfold generate_window_activities choices
  simp only [scenarioProfile]
  norm_num
  rfl

theorem scenario_statuses (off : Int) (h1 : 8640 ≤ off) (h2 : off ≤ 14400)
    (acts : List Activity) :
    generate_afk_statuses ⟨378000, 406800, false⟩
      [⟨378000 + off, 378000 + off + 1800, "lunch"⟩] acts =
      [⟨"active", off, 378000⟩,
       ⟨"afk", 1800, 378000 + off⟩,
       ⟨"active", 406800 - (378000 + off + 1800), 378000 + off + 1800⟩] := by
  unfold generate_afk_statuses
  simp only [segs_loop]
  rw [if_pos (by omega : (378000 : Int) < 378000 + off),
    if_pos (by omega : (378000 : Int) + off + 1800 < 406800)]
  simp only [List.cons_append, List.nil_append, statuses_of]
  norm_num
  rw [if_pos (by omega : (0 : Int) < off),
    if_neg (by decide : ¬ ("lunch" : String) = "work"),
    if_pos (by omega : (378000 : Int) + off + 1800 < 406800)]

theorem scenario_metrics (off : Int) (_h1 : 8640 ≤ off) (_h2 : off ≤ 14400)
    (acts : List Activity) :
    (calculate_daily_metrics 4 [⟨"active", off, 378000⟩, ⟨"afk", 1800, 378000 + off⟩,
        ⟨"active", 406800 - (378000 + off + 1800), 378000 + off + 1800⟩]
      acts).active_seconds = 27000 ∧
    (calculate_daily_metrics 4 [⟨"active", off, 378000⟩, ⟨"afk", 1800, 378000 + off⟩,
        ⟨"active", 406800 - (378000 + off + 1800), 378000 + off + 1800⟩]
      acts).afk_seconds = 1800 ∧
    (calculate_daily_metrics 4 [⟨"active", off, 378000⟩, ⟨"afk", 1800, 378000 + off⟩,
        ⟨"active", 406800 - (378000 + off + 1800), 378000 + off + 1800⟩]
      acts).idle_seconds = 0 ∧
    (calculate_daily_metrics 4 [⟨"active", off, 378000⟩, ⟨"afk", 1800, 378000 + off⟩,
        ⟨"active", 406800 - (378000 + off + 1800), 378000 + off + 1800⟩]
      acts).utilization_ratio = 9375 / 10000 := by
  unfold calculate_daily_metrics
  dsimp only
  norm_num [sum_durations, List.filter_cons, List.filter_nil,
    (show ¬ ("afk" = "active") by decide), (show ¬ ("active" = "afk") by decide),
    (show ¬ ("active" = "idle") by decide), (show ¬ ("afk" = "idle") by decide)]
  refine ⟨by omega, ?_⟩
  rw [if_pos (by omega : (0 : Int) < off + (406800 - (378000 + off + 1800)) + 1800)]
  rw [show ((off : ℚ) + (406800 - (378000 + (off : ℚ) + 1800))) = 27000 from by ring_nf]
  with_unfolding_all decide

theorem scenario_activities (off : Int) (h1 : 8640 ≤ off) (h2 : off ≤ 14400) (g : Rng) :
    ∃ acts g', generate_window_activities scenarioProfile ⟨378000, 406800, false⟩
        [⟨378000 + off, 378000 + off + 1800, "lunch"⟩] g = some (acts, g') ∧
      sum_act_durations acts = 27000 := by
  obtain ⟨acts, g', hrun, hsum⟩ := gen_loop_sum_single scenarioProfile ["Chrome"] [3]
    (by norm_num) (by norm_num) 378000 406800 (378000 + off) (378000 + off + 1800)
    (by omega) (by omega) (by omega) (by norm_num)
    28801 378000 (weightedChoice ["Chrome"] [3] (g.draws g.idx % 3))
    (⟨g.draws, g.idx + 1⟩ : Rng) (Or.inl ⟨le_refl _, by omega⟩) (by decide)
  refine ⟨acts, g', ?_, ?_⟩
  · rw [scenario_activities_unfold]
    exact hrun
  · rw [hsum, if_pos (by omega : (378000 : Int) ≤ 378000 + off)]
    omega

/-- C1 (amended): for the scenario profile (09:00-17:00, variance 0, no
weekend activity, lunch range [30, 30] minutes, zero coffee breaks,
single app "Chrome") and the weekday 1970-01-05, every run produces the
8-hour session 09:00-17:00, exactly one lunch `BreakInterval` of 30
minutes (1800 s, placed at an offset between 30% and 50% of the
session), `WindowActivityEvents` whose durations sum to 7.5 hours
(27000 s, not the 7 hours / 25200 s of the claim as stated), and a
`DailyMetricRecord` with `active_seconds = 27000`, `afk_seconds = 1800`,
`idle_seconds = 0` and `utilization_ratio = 0.9375`. -/
theorem claim_C1_amended (g : Rng) :
    ∃ (off : Int) (g2 g3 : Rng) (acts : List Activity) (g4 : Rng),
      generate_work_session scenarioProfile 4 g = (some ⟨378000, 406800, false⟩, g2) ∧
      generate_breaks scenarioProfile ⟨378000, 406800, false⟩ g2 =
        some ([⟨378000 + off, 378000 + off + 1800, "lunch"⟩], g3) ∧
      8640 ≤ off ∧ off ≤ 14400 ∧
      generate_window_activities scenarioProfile ⟨378000, 406800, false⟩
        [⟨378000 + off, 378000 + off + 1800, "lunch"⟩] g3 = some (acts, g4) ∧
      sum_act_durations acts = 27000 ∧
      (calculate_daily_metrics 4 (generate_afk_statuses ⟨378000, 406800, false⟩
        [⟨378000 + off, 378000 + off + 1800, "lunch"⟩] acts) acts).active_seconds =
        27000 ∧
      (calculate_daily_metrics 4 (generate_afk_statuses ⟨378000, 406800, false⟩
        [⟨378000 + off, 378000 + off + 1800, "lunch"⟩] acts) acts).afk_seconds =
        1800 ∧
      (calculate_daily_metrics 4 (generate_afk_statuses ⟨378000, 406800, false⟩
        [⟨378000 + off, 378000 + off + 1800, "lunch"⟩] acts) acts).idle_seconds = 0 ∧
      (calculate_daily_metrics 4 (generate_afk_statuses ⟨378000, 406800, false⟩
        [⟨378000 + off, 378000 + off + 1800, "lunch"⟩] acts) acts).utilization_ratio =
        9375 / 10000 := by
  have hsess := scenario_session g
  have hbr := scenario_breaks (⟨g.draws, g.idx + 1 + 1⟩ : Rng)
  have hoffnn : 0 ≤ ((⟨g.draws, g.idx + 1 + 1⟩ : Rng).draws
      ((⟨g.draws, g.idx + 1 + 1⟩ : Rng).idx + 1) : Int) % 5761 :=
    Int.emod_nonneg _ (by norm_num)
  have hofflt : ((⟨g.draws, g.idx + 1 + 1⟩ : Rng).draws
      ((⟨g.draws, g.idx + 1 + 1⟩ : Rng).idx + 1) : Int) % 5761 < 5761 :=
    Int.emod_lt_of_pos _ (by norm_num)
  set off := 8640 + ((⟨g.draws, g.idx + 1 + 1⟩ : Rng).draws
      ((⟨g.draws, g.idx + 1 + 1⟩ : Rng).idx + 1) : Int) % 5761 with hoffdef
  have hoff1 : 8640 ≤ off := by omega
  have hoff2 : off ≤ 14400 := by omega
  obtain ⟨acts, g4, hact, hsum⟩ := scenario_activities off hoff1 hoff2
    (⟨(⟨g.draws, g.idx + 1 + 1⟩ : Rng).draws,
      (⟨g.draws, g.idx + 1 + 1⟩ : Rng).idx + 1 + 1 + 1⟩ : Rng)
  refine ⟨off, ⟨g.draws, g.idx + 1 + 1⟩,
    ⟨(⟨g.draws, g.idx + 1 + 1⟩ : Rng).draws,
      (⟨g.draws, g.idx + 1 + 1⟩ : Rng).idx + 1 + 1 + 1⟩, acts, g4,
    hsess, hbr, hoff1, hoff2, hact, hsum, ?_, ?_, ?_, ?_⟩
  · rw [scenario_statuses off hoff1 hoff2 acts]
    exact (scenario_metrics off hoff1 hoff2 acts).1
  · rw [scenario_statuses off hoff1 hoff2 acts]
    exact (scenario_metrics off hoff1 hoff2 acts).2.1
  · rw [scenario_statuses off hoff1 hoff2 acts]
    exact (scenario_metrics off hoff1 hoff2 acts).2.2.1
  · rw [scenario_statuses off hoff1 hoff2 acts]
    exact (scenario_metrics off hoff1 hoff2 acts).2.2.2

/-- A draw stream for the C1 counterexample: zeros for the session,
lunch and initial app draws, then the repeating triple
(duration draw 720 -> 900 s, title draw 0, switch draw 400000 -> no
switch). -/
def rngC1 : Rng :=
  ⟨fun n => if n < 6 then 0
    else if (n - 6) % 3 = 0 then 720
    else if (n - 6) % 3 = 1 then 0
    else 400000, 0⟩

/-- Counterexample to C1 as stated: on a concrete run of the scenario
the activity durations sum to 27000 s (7.5 h) and the daily metric has
`active_seconds = 27000` and `utilization_ratio = 0.9375`, not the
claimed 25200 s / 0.9333 (the 09:00-17:00 session is 8 h, so the
non-lunch time is 7.5 h, not 7 h). -/
theorem claim_C1_counterexample :
    (generate_work_session scenarioProfile 4 rngC1).1 = some ⟨378000, 406800, false⟩ ∧
    (generate_breaks scenarioProfile ⟨378000, 406800, false⟩
      (⟨rngC1.draws, 2⟩ : Rng)).map Prod.fst =
      some [⟨378000 + 8640, 378000 + 8640 + 1800, "lunch"⟩] ∧
    (generate_window_activities scenarioProfile ⟨378000, 406800, false⟩
      [⟨378000 + 8640, 378000 + 8640 + 1800, "lunch"⟩] (⟨rngC1.draws, 5⟩ : Rng)).map
        (fun r => sum_act_durations r.1) = some 27000 ∧
    (calculate_daily_metrics 4 (generate_afk_statuses ⟨378000, 406800, false⟩
      [⟨378000 + 8640, 378000 + 8640 + 1800, "lunch"⟩] []) []).active_seconds = 27000 ∧
    (calculate_daily_metrics 4 (generate_afk_statuses ⟨378000, 406800, false⟩
      [⟨378000 + 8640, 378000 + 8640 + 1800, "lunch"⟩] []) []).utilization_ratio =
      9375 / 10000 ∧
    ¬ ((27000 : Int) = 25200) ∧
    ¬ ((9375 / 10000 : ℚ) = 9333 / 10000) := by
  obtain ⟨acts, g', h1, h2⟩ := scenario_activities 8640 (by norm_num) (by norm_num)
    (⟨rngC1.draws, 5⟩ : Rng)
  refine ⟨rfl, rfl, ?_, ?_, ?_, by decide, ?_⟩
  · rw [h1]
    simp [h2]
  · rw [scenario_statuses 8640 (by norm_num) (by norm_num) []]
    exact (scenario_metrics 8640 (by norm_num) (by norm_num) []).1
  · rw [scenario_statuses 8640 (by norm_num) (by norm_num) []]
    exact (scenario_metrics 8640 (by norm_num) (by norm_num) []).2.2.2
  · with_unfolding_all decide
